import Mathlib

/-!
Verification development for the html-vegalite library: a shallow embedding
of the HTML parser (src/parser.ts), the tag-strategy system
(src/strategies/*), the tag-strategy registry (TagStrategyRegistry) and the
text layout engine (src/layout.ts), together with theorems settling the
specification claims.

Numbers are modelled as rationals (JS numbers; all arithmetic in scope is
exact decimal arithmetic).  JS strings are Lean `String`s.  JS `undefined`
for optional values is `Option.none`.  Thrown JS exceptions are modelled by
`Except String`, carrying the message.  String primitives used by the code
(`toLowerCase`, `trim`, `split`, ...) are re-implemented structurally below
so that every definition evaluates inside the Lean kernel.
-/

set_option maxRecDepth 20000

/-- JS whitespace test for the characters relevant to `trim`/`trimStart`
and `\s` in the regexes of the source (ASCII whitespace). -/
def isJsSpace (c : Char) : Bool := c = ' ' ∨ c = '\t' ∨ c = '\n' ∨ c = '\r' ∨ c = '\x0b' ∨ c = '\x0c'

/-- `String.prototype.toLowerCase` (ASCII range, which is all the source uses). -/
def strToLower (s : String) : String := String.mk (s.data.map Char.toLower)

/-- `String.prototype.trim`. -/
def strTrim (s : String) : String :=
  String.mk (((s.data.dropWhile isJsSpace).reverse.dropWhile isJsSpace).reverse)

/-- `String.prototype.trimStart`. -/
def strTrimStart (s : String) : String := String.mk (s.data.dropWhile isJsSpace)

/-- `String.prototype.includes` for a single character (`text.includes(' ')`). -/
def strContainsChar (s : String) (c : Char) : Bool := s.data.contains c

/-- Auxiliary for `jsSplitOnChar`. -/
def splitOnCharAux (sep : Char) : List Char → List Char → List String
  | [], acc => [String.mk acc.reverse]
  | c :: rest, acc =>
    if c = sep then String.mk acc.reverse :: splitOnCharAux sep rest []
    else splitOnCharAux sep rest (c :: acc)

/-- `String.prototype.split` with a one-character separator (`text.split(' ')`):
splits at every occurrence, keeping empty pieces. -/
def jsSplitOnChar (sep : Char) (s : String) : List String := splitOnCharAux sep s.data []

/-- `Array.prototype.join(sep)`. -/
def joinWith (sep : String) : List String → String
  | [] => ""
  | [x] => x
  | x :: y :: xs => x ++ sep ++ joinWith sep (y :: xs)

/-- JS `x || d` for an optional number `x` (`undefined` and `0` are falsy). -/
def jsOrQ (v : Option ℚ) (d : ℚ) : ℚ :=
  match v with
  | some x => if x = 0 then d else x
  | none => d

/-- JS `x || d` for an optional natural number (`undefined` and `0` are falsy). -/
def jsOrNat (v : Option Nat) (d : Nat) : Nat :=
  match v with
  | some x => if x = 0 then d else x
  | none => d

/-- `Math.max`, written explicitly so it evaluates in the kernel. -/
def qMax (a b : ℚ) : ℚ := if a ≤ b then b else a

/-- Digit-run accumulator for `jsParseInt`. -/
def digitsToNat (ds : List Char) : Nat :=
  ds.foldl (fun a c => a * 10 + (c.toNat - '0'.toNat)) 0

/-- JS `parseInt` (radix 10): leading whitespace, optional sign, a digit run;
`none` models `NaN`. -/
def jsParseInt (s : String) : Option Int :=
  let cs := s.data.dropWhile isJsSpace
  let signAndRest : Bool × List Char :=
    match cs with
    | '-' :: t => (true, t)
    | '+' :: t => (false, t)
    | _ => (false, cs)
  let ds := signAndRest.2.takeWhile Char.isDigit
  if ds = [] then none
  else some ((if signAndRest.1 then -1 else 1) * (digitsToNat ds : Int))

/-- Suffix of `hay` just after the first occurrence of `pat`
(substring search used to model the scanning regexes). -/
def dropAfterFirst (hay pat : List Char) : Option (List Char) :=
  match hay with
  | [] => if pat = [] then some [] else none
  | c :: t =>
    if pat.isPrefixOf (c :: t) then some ((c :: t).drop pat.length)
    else dropAfterFirst t pat

/-- `String.prototype.includes` for substrings (`decoration.includes('underline')`). -/
def strIncludes (hay needle : String) : Bool := (dropAfterFirst hay.data needle.data).isSome

/-- JS `Map.prototype.get` on an insertion-ordered association list. -/
def mapGet {α : Type} (es : List (String × α)) (k : String) : Option α :=
  (es.find? (fun p => p.1 = k)).map (fun p => p.2)

/-- JS `Map.prototype.set`: update in place when the key exists, append otherwise. -/
def mapSet {α : Type} (es : List (String × α)) (k : String) (v : α) : List (String × α) :=
  match es with
  | [] => [(k, v)]
  | (k', v') :: rest => if k' = k then (k, v) :: rest else (k', v') :: mapSet rest k v

/-- JS `Map.prototype.delete`: removes the entry with the key and reports
whether one was present. -/
def mapDelete {α : Type} (es : List (String × α)) (k : String) : Bool × List (String × α) :=
  match es with
  | [] => (false, [])
  | (k', v') :: rest =>
    if k' = k then (true, rest)
    else
      let r := mapDelete rest k
      (r.1, (k', v') :: r.2)

/-- `TextStyle` from types.ts, with the list-context fields set by
`ListTagStrategy.applyStyle` (`undefined` when absent, as in JS). -/
structure TextStyle where
  fontWeight : String
  fontStyle : String
  color : String
  textDecoration : String
  fontSize : Option ℚ := none
  isListItem : Option Bool := none
  listNestingLevel : Option Nat := none
  listType : Option String := none
deriving Repr, DecidableEq

/-- `HTMLParser.getDefaultStyle` (src/parser.ts). -/
def defaultStyle : TextStyle :=
  { fontWeight := "normal", fontStyle := "normal", color := "#000000", textDecoration := "none" }

/-- `TextSegment` from types.ts: one run of text plus its style.  The source
spreads the style fields into the segment object and occasionally adds the
spacing flags `hasSpaceAfter`/`spacingContext`; those flags are only read by
the spacing post-pass and are not modelled. -/
structure TextSegment where
  text : String
  style : TextStyle
deriving Repr, DecidableEq

/-- `ListTagStrategy`'s process-wide static state (`listStack` and
`listCounters` in src/strategies/implementations/list-tag-strategy.ts),
threaded explicitly.  The head of `listStack` is the JS array's last
element (the top). -/
structure ListState where
  listStack : List String := []
  listCounters : List (String × Nat) := []
deriving Repr, DecidableEq

/-- `ListTagStrategy.applyStyle`: pushes list containers onto the list
stack, increments the ordered-list counter for `li`, and sets the list
context fields on the style. -/
def ListTagStrategy.applyStyle (currentStyle : TextStyle) (_attributes : String)
    (tagName : Option String) (ls : ListState) : TextStyle × ListState :=
  match tagName.map strToLower with
  | some "ul" => (currentStyle, { ls with listStack := "ul" :: ls.listStack })
  | some "ol" =>
    let st2 := "ol" :: ls.listStack
    (currentStyle,
      { listStack := st2,
        listCounters := mapSet ls.listCounters ("ol-" ++ Nat.repr st2.length) 0 })
  | some "li" =>
    let parentListType := ls.listStack.head?
    let ls2 :=
      if parentListType = some "ol" then
        let olKey := "ol-" ++ Nat.repr ls.listStack.length
        { ls with listCounters :=
            mapSet ls.listCounters olKey (((mapGet ls.listCounters olKey).getD 0) + 1) }
      else ls
    ({ currentStyle with
        isListItem := some true,
        listNestingLevel := some ls.listStack.length,
        listType := parentListType }, ls2)
  | _ => (currentStyle, ls)

/-- `ListTagStrategy.getListItemPrefix` (the bullet or number text put in
front of a list item). -/
def ListTagStrategy.getListItemMarker (ls : ListState) (tagName : String) : String :=
  if strToLower tagName = "li" then
    match ls.listStack.head? with
    | some "ol" =>
      let olKey := "ol-" ++ Nat.repr ls.listStack.length
      Nat.repr (jsOrNat (mapGet ls.listCounters olKey) 1) ++ ". "
    | some "ul" => "• "
    | _ => ""
  else ""

/-- `ListTagStrategy.handleClosingTag`: deletes the depth counter when an
ordered list closes and pops the list stack. -/
def ListTagStrategy.handleClosingTag (tagName : String) (ls : ListState) : ListState :=
  let tag := strToLower tagName
  if tag = "ul" ∨ tag = "ol" then
    let ls1 :=
      if tag = "ol" then
        { ls with listCounters := (mapDelete ls.listCounters ("ol-" ++ Nat.repr ls.listStack.length)).2 }
      else ls
    { ls1 with listStack := ls1.listStack.tail }
  else ls

/-- `BoldTagStrategy.applyStyle`. -/
def BoldTagStrategy.applyStyle (currentStyle : TextStyle) (_attributes : String)
    (_tagName : Option String) : TextStyle :=
  { currentStyle with fontWeight := "bold" }

/-- `ItalicTagStrategy.applyStyle`. -/
def ItalicTagStrategy.applyStyle (currentStyle : TextStyle) (_attributes : String)
    (_tagName : Option String) : TextStyle :=
  { currentStyle with fontStyle := "italic" }

/-- `UnderlineTagStrategy.applyStyle`. -/
def UnderlineTagStrategy.applyStyle (currentStyle : TextStyle) (_attributes : String)
    (_tagName : Option String) : TextStyle :=
  { currentStyle with textDecoration := "underline" }

/-- The fixed `headingSizes` table of `HeadingTagStrategy`. -/
def HeadingTagStrategy.headingSizes (tag : String) : Option ℚ :=
  if tag = "h1" then some 32
  else if tag = "h2" then some 24
  else if tag = "h3" then some (18.72 : ℚ)
  else if tag = "h4" then some 16
  else if tag = "h5" then some (13.28 : ℚ)
  else if tag = "h6" then some (10.72 : ℚ)
  else none

/-- `HeadingTagStrategy.applyStyle`: looks the lowercased tag name up in the
size table (falling back to 16 via JS `||`), or, when no tag name was
passed, falls back to the current font size (or 16); always sets bold. -/
def HeadingTagStrategy.applyStyle (currentStyle : TextStyle) (_attributes : String)
    (tagName : Option String) : TextStyle :=
  let fontSize :=
    match tagName with
    | some t => jsOrQ (HeadingTagStrategy.headingSizes (strToLower t)) 16
    | none => jsOrQ currentStyle.fontSize 16
  { currentStyle with fontWeight := "bold", fontSize := some fontSize }

/-- `ParagraphTagStrategy.applyStyle`: returns the current style unchanged. -/
def ParagraphTagStrategy.applyStyle (currentStyle : TextStyle) (_attributes : String)
    (_tagName : Option String) : TextStyle :=
  currentStyle

/-- `LineBreakTagStrategy.applyStyle`: line breaks do not change styling. -/
def LineBreakTagStrategy.applyStyle (currentStyle : TextStyle) (_attributes : String)
    (_tagName : Option String) : TextStyle :=
  currentStyle

/-- `CodeTagStrategy.applyStyle`. -/
def CodeTagStrategy.applyStyle (currentStyle : TextStyle) (_attributes : String)
    (_tagName : Option String) : TextStyle :=
  { currentStyle with color := "#d63384" }

/-- `SmallTextTagStrategy.applyStyle`. -/
def SmallTextTagStrategy.applyStyle (currentStyle : TextStyle) (_attributes : String)
    (_tagName : Option String) : TextStyle :=
  { currentStyle with color := "#6c757d" }

/-- `HighlightTagStrategy.applyStyle`. -/
def HighlightTagStrategy.applyStyle (currentStyle : TextStyle) (_attributes : String)
    (_tagName : Option String) : TextStyle :=
  { currentStyle with color := "#212529" }

/-- `StrikethroughTagStrategy.applyStyle`. -/
def StrikethroughTagStrategy.applyStyle (currentStyle : TextStyle) (_attributes : String)
    (_tagName : Option String) : TextStyle :=
  { currentStyle with textDecoration := "line-through", color := "#6c757d" }

/-- Quote character test for the `style=['"](.*?)['"]` regex. -/
def isQuoteChar (c : Char) : Bool := c = Char.ofNat 39 ∨ c = '"'

/-- Auxiliary scanner for `spanStyleContent`. -/
def spanStyleContentAux : List Char → Option String
  | [] => none
  | c :: t =>
    if "style=".data.isPrefixOf (c :: t) &&
        (match (c :: t).drop 6 with | q :: _ => isQuoteChar q | [] => false) then
      let after := (c :: t).drop 7
      let content := after.takeWhile (fun ch => ¬ isQuoteChar ch)
      if after.dropWhile (fun ch => ¬ isQuoteChar ch) = [] then none
      else some (String.mk content)
    else spanStyleContentAux t

/-- The capture of `attributes.match(/style=['"](.*?)['"]/)`: the text
between the first `style=` quote and the next quote character.  `none`
models a failed match (in particular when no closing quote follows the
first candidate, in which case no later candidate can match either). -/
def spanStyleContent (attributes : String) : Option String :=
  spanStyleContentAux attributes.data

/-- Auxiliary scanner for `cssValueAfter`: first occurrence of the literal
property key followed by `\s*([^;]+)`, with the regex backtracking quirk
that when only whitespace precedes a `;` the match degrades to the last
whitespace character. -/
def cssValueAfterAux (patColon : List Char) : List Char → Option String
  | [] => none
  | c :: t =>
    if patColon.isPrefixOf (c :: t) then
      let after := (c :: t).drop patColon.length
      let wsRun := after.takeWhile isJsSpace
      let value := (after.dropWhile isJsSpace).takeWhile (fun ch => ch ≠ ';')
      if value ≠ [] then some (String.mk value)
      else if wsRun ≠ [] then some (String.mk [wsRun.getLastD ' '])
      else cssValueAfterAux patColon t
    else cssValueAfterAux patColon t

/-- The capture of `styleStr.match(/<prop>:\s*([^;]+)/)`. -/
def cssValueAfter (styleStr : String) (propColon : String) : Option String :=
  cssValueAfterAux propColon.data styleStr.data

/-- `SpanTagStrategy.parseColor`. -/
def SpanTagStrategy.parseColor (styleStr : String) (style : TextStyle) : TextStyle :=
  match cssValueAfter styleStr "color:" with
  | some v => { style with color := strTrim v }
  | none => style

/-- `SpanTagStrategy.parseFontWeight`: `bold` or a parsed weight ≥ 600 maps
to bold, everything else to normal. -/
def SpanTagStrategy.parseFontWeight (styleStr : String) (style : TextStyle) : TextStyle :=
  match cssValueAfter styleStr "font-weight:" with
  | some v =>
    let weight := strTrim v
    if weight = "bold" || (match jsParseInt weight with | some n => decide (n ≥ 600) | none => false) then
      { style with fontWeight := "bold" }
    else { style with fontWeight := "normal" }
  | none => style

/-- `SpanTagStrategy.parseFontStyle`. -/
def SpanTagStrategy.parseFontStyle (styleStr : String) (style : TextStyle) : TextStyle :=
  match cssValueAfter styleStr "font-style:" with
  | some v =>
    let fs := strTrim v
    if fs = "italic" ∨ fs = "oblique" then { style with fontStyle := "italic" }
    else { style with fontStyle := "normal" }
  | none => style

/-- `SpanTagStrategy.parseTextDecoration`. -/
def SpanTagStrategy.parseTextDecoration (styleStr : String) (style : TextStyle) : TextStyle :=
  match cssValueAfter styleStr "text-decoration:" with
  | some v =>
    if strIncludes (strTrim v) "underline" then { style with textDecoration := "underline" }
    else { style with textDecoration := "none" }
  | none => style

/-- `SpanTagStrategy.applyStyle`: parses the `style="..."` attribute for the
four recognized CSS properties. -/
def SpanTagStrategy.applyStyle (currentStyle : TextStyle) (attributes : String)
    (_tagName : Option String) : TextStyle :=
  match spanStyleContent attributes with
  | none => currentStyle
  | some styleStr =>
    if styleStr = "" then currentStyle
    else
      let s1 := SpanTagStrategy.parseColor styleStr currentStyle
      let s2 := SpanTagStrategy.parseFontWeight styleStr s1
      let s3 := SpanTagStrategy.parseFontStyle styleStr s2
      SpanTagStrategy.parseTextDecoration styleStr s3

/-- Valid CSS properties of `SpanTagStrategy.validateAttributes`. -/
def spanValidProperties : List String := ["color", "font-weight", "font-style", "text-decoration"]

/-- Valid `font-weight` values of `SpanTagStrategy.validateAttributes`. -/
def spanValidFontWeights : List String :=
  ["normal", "bold", "100", "200", "300", "400", "500", "600", "700", "800", "900"]

/-- CSS property-name character test (`[a-zA-Z-]`). -/
def isCssPropChar (c : Char) : Bool := c.isAlpha ∨ c = '-'

/-- Scanner for the repeated `([a-zA-Z-]+)\s*:\s*([^;]+)` matches of
`SpanTagStrategy.validateAttributes`, collecting the validation errors. -/
def spanValidateAux : Nat → List Char → List String → List String
  | 0, _, errs => errs
  | _ + 1, [], errs => errs
  | fuel + 1, c :: t, errs =>
    if isCssPropChar c then
      let run := (c :: t).takeWhile isCssPropChar
      let rest1 := ((c :: t).dropWhile isCssPropChar).dropWhile isJsSpace
      match rest1 with
      | ':' :: r2 =>
        let wsRun := r2.takeWhile isJsSpace
        let value := (r2.dropWhile isJsSpace).takeWhile (fun ch => ch ≠ ';')
        let matched : Option (String × List Char) :=
          if value ≠ [] then some (String.mk value, (r2.dropWhile isJsSpace).dropWhile (fun ch => ch ≠ ';'))
          else if wsRun ≠ [] then some (String.mk [wsRun.getLastD ' '], r2.dropWhile isJsSpace)
          else none
        match matched with
        | some (rawValue, rest2) =>
          let property := strTrim (String.mk run)
          let value := strTrim rawValue
          let errs1 :=
            if spanValidProperties.contains property then errs
            else errs ++ ["Unsupported CSS property: " ++ property]
          let errs2 :=
            if property = "font-weight" ∧ ¬ spanValidFontWeights.contains value then
              errs1 ++ ["Invalid font-weight value: " ++ value]
            else errs1
          spanValidateAux fuel rest2 errs2
        | none => spanValidateAux fuel t errs
      | _ => spanValidateAux fuel t errs
    else spanValidateAux fuel t errs

/-- `SpanTagStrategy.validateAttributes`. -/
def SpanTagStrategy.validateAttributes (attributes : String) : Bool × List String :=
  match spanStyleContent attributes with
  | none => (true, [])
  | some styleStr =>
    if styleStr = "" then (true, [])
    else
      let errs := spanValidateAux (styleStr.data.length + 1) styleStr.data []
      (errs.isEmpty, errs)

/-- `TagStrategy` capability record (tag-strategy.interface.ts).  JS methods
may throw, so `applyStyle` returns `Except` carrying the thrown message;
the `ListTagStrategy` statics are threaded through as a `ListState`.
`validateAttributes` is `none` when the strategy has no such method. -/
structure TagStrategy where
  tagNames : List String
  applyStyle : TextStyle → String → Option String → ListState → Except String (TextStyle × ListState)
  validateAttributes : Option (String → Bool × List String) := none
  isLineBreak : Bool := false

/-- Lifts a pure, list-state-free `applyStyle` into the strategy interface. -/
def pureStyleFn (f : TextStyle → String → Option String → TextStyle) :
    TextStyle → String → Option String → ListState → Except String (TextStyle × ListState) :=
  fun c a t ls => Except.ok (f c a t, ls)

/-- `BaseTagStrategy.validateAttributes`: the default is always valid. -/
def BaseTagStrategy.validateAttributes (_attributes : String) : Bool × List String := (true, [])

/-- `TagStrategyRegistry` (unnamed/part_008): an insertion-ordered map from
lowercase tag name to strategy, generic in the strategy type (the TS class
works for any object implementing the interface; genericity lets the
registry theorems speak about handler-instance identity). -/
structure TagStrategyRegistry (α : Type) where
  entries : List (String × α)
deriving Repr, DecidableEq

/-- `TagStrategyRegistry.registerStrategy`: binds every declared tag name,
lowercased, to the strategy, overwriting prior bindings. -/
def TagStrategyRegistry.registerStrategy {α : Type} (tagNames : α → List String)
    (r : TagStrategyRegistry α) (strategy : α) : TagStrategyRegistry α :=
  ⟨(tagNames strategy).foldl (fun es n => mapSet es (strToLower n) strategy) r.entries⟩

/-- `TagStrategyRegistry.getStrategy` (case-insensitive lookup). -/
def TagStrategyRegistry.getStrategy {α : Type} (r : TagStrategyRegistry α)
    (tagName : String) : Option α :=
  mapGet r.entries (strToLower tagName)

/-- `TagStrategyRegistry.isSupported`. -/
def TagStrategyRegistry.isSupported {α : Type} (r : TagStrategyRegistry α)
    (tagName : String) : Bool :=
  (mapGet r.entries (strToLower tagName)).isSome

/-- `TagStrategyRegistry.getSupportedTags`. -/
def TagStrategyRegistry.getSupportedTags {α : Type} (r : TagStrategyRegistry α) : List String :=
  r.entries.map (fun p => p.1)

/-- `TagStrategyRegistry.removeStrategy`: looks up the strategy bound to the
name and deletes the binding of every tag name that strategy declares;
returns whether anything was removed, plus the new registry. -/
def TagStrategyRegistry.removeStrategy {α : Type} (tagNames : α → List String)
    (r : TagStrategyRegistry α) (tagName : String) : Bool × TagStrategyRegistry α :=
  match r.getStrategy tagName with
  | none => (false, r)
  | some strategy =>
    let res := (tagNames strategy).foldl
      (fun (acc : Bool × List (String × α)) tag =>
        let d := mapDelete acc.2 (strToLower tag)
        (acc.1 || d.1, d.2))
      (false, r.entries)
    (res.1, ⟨res.2⟩)

/-- The `BoldTagStrategy` instance (tags `b`, `strong`). -/
def boldStrategy : TagStrategy :=
  { tagNames := ["b", "strong"],
    applyStyle := pureStyleFn BoldTagStrategy.applyStyle,
    validateAttributes := some BaseTagStrategy.validateAttributes }

/-- The `ItalicTagStrategy` instance (tags `i`, `em`). -/
def italicStrategy : TagStrategy :=
  { tagNames := ["i", "em"],
    applyStyle := pureStyleFn ItalicTagStrategy.applyStyle,
    validateAttributes := some BaseTagStrategy.validateAttributes }

/-- The `UnderlineTagStrategy` instance (tag `u`). -/
def underlineStrategy : TagStrategy :=
  { tagNames := ["u"],
    applyStyle := pureStyleFn UnderlineTagStrategy.applyStyle,
    validateAttributes := some BaseTagStrategy.validateAttributes }

/-- The `SpanTagStrategy` instance (tag `span`). -/
def spanStrategy : TagStrategy :=
  { tagNames := ["span"],
    applyStyle := pureStyleFn SpanTagStrategy.applyStyle,
    validateAttributes := some SpanTagStrategy.validateAttributes }

/-- The `HeadingTagStrategy` instance (tags `h1`..`h6`).  The class does not
override `BaseTagStrategy.isLineBreak`, so it inherits the base default
`false`; the parser treats headings as block elements through its own
`blockElements` list, not through the strategy flag. -/
def headingStrategy : TagStrategy :=
  { tagNames := ["h1", "h2", "h3", "h4", "h5", "h6"],
    applyStyle := pureStyleFn HeadingTagStrategy.applyStyle,
    validateAttributes := some BaseTagStrategy.validateAttributes,
    isLineBreak := false }

/-- The `ParagraphTagStrategy` instance (tag `p`).  Like the heading
strategy it does not override `isLineBreak`, inheriting the base default
`false`. -/
def paragraphStrategy : TagStrategy :=
  { tagNames := ["p"],
    applyStyle := pureStyleFn ParagraphTagStrategy.applyStyle,
    validateAttributes := some BaseTagStrategy.validateAttributes,
    isLineBreak := false }

/-- The `LineBreakTagStrategy` instance (tag `br`). -/
def lineBreakStrategy : TagStrategy :=
  { tagNames := ["br"],
    applyStyle := pureStyleFn LineBreakTagStrategy.applyStyle,
    validateAttributes := some BaseTagStrategy.validateAttributes,
    isLineBreak := true }

/-- The `CodeTagStrategy` instance (tags `code`, `pre`, `kbd`, `samp`). -/
def codeStrategy : TagStrategy :=
  { tagNames := ["code", "pre", "kbd", "samp"],
    applyStyle := pureStyleFn CodeTagStrategy.applyStyle,
    validateAttributes := some BaseTagStrategy.validateAttributes }

/-- The `SmallTextTagStrategy` instance (tags `small`, `sub`, `sup`). -/
def smallTextStrategy : TagStrategy :=
  { tagNames := ["small", "sub", "sup"],
    applyStyle := pureStyleFn SmallTextTagStrategy.applyStyle,
    validateAttributes := some BaseTagStrategy.validateAttributes }

/-- The `HighlightTagStrategy` instance (tag `mark`). -/
def highlightStrategy : TagStrategy :=
  { tagNames := ["mark"],
    applyStyle := pureStyleFn HighlightTagStrategy.applyStyle,
    validateAttributes := some BaseTagStrategy.validateAttributes }

/-- The `StrikethroughTagStrategy` instance (tags `s`, `strike`, `del`). -/
def strikethroughStrategy : TagStrategy :=
  { tagNames := ["s", "strike", "del"],
    applyStyle := pureStyleFn StrikethroughTagStrategy.applyStyle,
    validateAttributes := some BaseTagStrategy.validateAttributes }

/-- Modelled from the spec: `HyperlinkTagStrategy`
(hyperlink-tag-strategy.ts is not under src/; docs/API.md documents tag
`a`, effect `color: '#0066cc'`, `textDecoration: 'underline'`, and
validation of the `href` attribute rejecting an empty or missing value). -/
def HyperlinkTagStrategy.applyStyle (currentStyle : TextStyle) (_attributes : String)
    (_tagName : Option String) : TextStyle :=
  { currentStyle with color := "#0066cc", textDecoration := "underline" }

/-- Modelled from the spec: `HyperlinkTagStrategy.validateAttributes`
(source missing; per spec §4.8 a hyperlink handler rejects empty or
malformed `href` values). -/
def HyperlinkTagStrategy.validateAttributes (attributes : String) : Bool × List String :=
  match (dropAfterFirst attributes.data "href=".data) with
  | none => (false, ["Missing href attribute in anchor tag"])
  | some rest =>
    let inner :=
      match rest with
      | q :: t => if isQuoteChar q then t.takeWhile (fun ch => ¬ isQuoteChar ch) else rest
      | [] => []
    if inner = [] then (false, ["Invalid URL in href attribute"]) else (true, [])

/-- The `HyperlinkTagStrategy` instance (tag `a`). -/
def hyperlinkStrategy : TagStrategy :=
  { tagNames := ["a"],
    applyStyle := pureStyleFn HyperlinkTagStrategy.applyStyle,
    validateAttributes := some HyperlinkTagStrategy.validateAttributes }

/-- The keyword alternation of the list-tag attribute pattern of
list-tag-strategy.ts. -/
def listAttrKeywords : List String := ["class", "id", "style", "type", "start"]

/-- Case-insensitive prefix test, matching one keyword alternative of the
pattern (the `i` flag lower-cases only the keyword letters). -/
def ciStartsWith (cs : List Char) (kw : String) : Bool :=
  decide ((cs.take kw.length).map Char.toLower = kw.data)

/-- Anchored matcher for the list-tag attribute pattern
`^(\s*(class|id|style|type|start)\s*=\s*[quote][^quotes]*[quote]\s*)*$`
(case-insensitive) of `ListTagStrategy.validateAttributes`: zero or more
groups, each a keyword, `=`, and a quoted value, separated by optional
whitespace.  The value class excludes both quote characters and the
closing quote class accepts either, so the quotes of a pair may differ.
The keywords are mutually prefix-free and the value cannot contain a
quote, so the regex match is deterministic and this matcher decides it. -/
def listAttrMatch : Nat → List Char → Bool
  | _, [] => true
  | 0, _ => false
  | fuel + 1, cs =>
    let cs1 := cs.dropWhile isJsSpace
    if cs1.isEmpty then true
    else
      match listAttrKeywords.find? (fun kw => ciStartsWith cs1 kw) with
      | none => false
      | some kw =>
        match (cs1.drop kw.length).dropWhile isJsSpace with
        | '=' :: cs3 =>
          match cs3.dropWhile isJsSpace with
          | q :: cs5 =>
            if q = '"' || q = '\'' then
              match cs5.dropWhile (fun c => !(c = '"' || c = '\'')) with
              | _ :: cs6 => listAttrMatch fuel cs6
              | [] => false
            else false
          | [] => false
        | _ => false

/-- `ListTagStrategy.validateAttributes`: empty (after trim) attributes are
valid; otherwise the trimmed attributes must match the pattern above. -/
def ListTagStrategy.validateAttributes (attributes : String) : Bool × List String :=
  let t := strTrim attributes
  if t = "" then (true, [])
  else if listAttrMatch (t.data.length + 1) t.data then (true, [])
  else (false, ["Invalid or unsupported attributes for list tag"])

/-- The `ListTagStrategy` instance (tags `ul`, `ol`, `li`); list tags are
line-break tags, and `applyStyle` also updates the threaded list state. -/
def listStrategy : TagStrategy :=
  { tagNames := ["ul", "ol", "li"],
    applyStyle := fun c a t ls => Except.ok (ListTagStrategy.applyStyle c a t ls),
    validateAttributes := some ListTagStrategy.validateAttributes,
    isLineBreak := true }

/-- Modelled from the spec: `createDefaultTagStrategyRegistry`
(strategies/index.ts is not under src/).  Per docs/API.md the default
registry is pre-loaded with all built-in strategies — bold, italic,
underline, span, heading, paragraph, hyperlink, line-break, code,
small-text, highlight and strikethrough — plus the list strategy whose
tags (`ul`, `ol`, `li`) the parser's token walk handles explicitly. -/
def createDefaultTagStrategyRegistry : TagStrategyRegistry TagStrategy :=
  [boldStrategy, italicStrategy, underlineStrategy, spanStrategy,
   headingStrategy, paragraphStrategy, hyperlinkStrategy, lineBreakStrategy,
   codeStrategy, smallTextStrategy, highlightStrategy, strikethroughStrategy,
   listStrategy].foldl
    (TagStrategyRegistry.registerStrategy TagStrategy.tagNames) ⟨[]⟩

/-- The registry of a freshly constructed `HTMLParser`: the default
registry with the custom strategies registered on top. -/
def parserRegistry (customStrategies : List TagStrategy) : TagStrategyRegistry TagStrategy :=
  customStrategies.foldl (TagStrategyRegistry.registerStrategy TagStrategy.tagNames)
    createDefaultTagStrategyRegistry

/-- A token of the parser's single-regex tokenization pass
(`html.split(/<(\/?)([a-zA-Z][a-zA-Z0-9]*)([^>]*)>/gi)`): either a text
part, or the three capture groups of one tag match (closing-slash
indicator, tag name, raw attribute string). -/
inductive Tok where
  | text (s : String)
  | tag (slash name attrs : String)
deriving Repr, DecidableEq

/-- Attempts the tag regex at a `<` (given the characters after it):
optional `/`, a letter, an alphanumeric run, any non-`>` run, then `>`.
Returns the three captures and the characters after the match. -/
def matchTagAt (cs : List Char) : Option (String × String × String × List Char) :=
  let slashAndRest : String × List Char :=
    match cs with
    | '/' :: t => ("/", t)
    | _ => ("", cs)
  match slashAndRest.2 with
  | [] => none
  | c :: t =>
    if c.isAlpha then
      let name := String.mk (c :: t.takeWhile Char.isAlphanum)
      let t2 := t.dropWhile Char.isAlphanum
      let attrs := String.mk (t2.takeWhile (fun ch => ch ≠ '>'))
      match t2.dropWhile (fun ch => ch ≠ '>') with
      | '>' :: after => some (slashAndRest.1, name, attrs, after)
      | _ => none
    else none

/-- Left-to-right scan producing the token stream of the split; the fuel is
an upper bound on the number of characters, consumed one or more per step. -/
def tokenizeAux : Nat → List Char → List Char → List Tok
  | 0, acc, _ => [Tok.text (String.mk acc.reverse)]
  | _ + 1, acc, [] => [Tok.text (String.mk acc.reverse)]
  | fuel + 1, acc, '<' :: rest =>
    (match matchTagAt rest with
     | some (slash, name, attrs, after) =>
       Tok.text (String.mk acc.reverse) :: Tok.tag slash name attrs :: tokenizeAux fuel [] after
     | none => tokenizeAux fuel ('<' :: acc) rest)
  | fuel + 1, acc, c :: rest => tokenizeAux fuel (c :: acc) rest

/-- The token stream of an input string: text pieces (possibly empty)
alternating with tag matches, exactly as produced by the `split` call in
`HTMLParser.parseHTML`. -/
def tokenize (html : String) : List Tok := tokenizeAux (html.data.length + 1) [] html.data

/-- The raw text a token contributes to `parts.slice(i+2).join('')` when
the remaining-content check runs (text parts and the captures of later
tags are joined back together). -/
def tokText : Tok → String
  | .text s => s
  | .tag slash name attrs => slash ++ name ++ attrs

/-- `parts.slice(..).join('')` over a token list. -/
def flattenToks (ts : List Tok) : String := ts.foldl (fun acc t => acc ++ tokText t) ""

/-- `HTMLParser.isSelfClosingTag`. -/
def isSelfClosingTag (tagName : String) : Bool :=
  ["br", "hr", "img", "input", "meta", "link"].contains (strToLower tagName)

/-- The validation result record of `HTMLParser.validateHTML`. -/
structure ValidationResult where
  isValid : Bool
  errors : List String
deriving Repr, DecidableEq

/-- The tag walk of `HTMLParser.validateHTML`: tracks the expected-open
stack (head = innermost) and accumulates mismatch and unsupported-tag
errors.  Returns the final open-tag stack and the error list. -/
def validateTags (reg : TagStrategyRegistry TagStrategy) :
    List Tok → List String → List String → List String × List String
  | [], openTags, errs => (openTags, errs)
  | .text _ :: ts, openTags, errs => validateTags reg ts openTags errs
  | .tag slash name _ :: ts, openTags, errs =>
    let tagName := strToLower name
    if slash = "/" then
      match openTags with
      | top :: restOpen =>
        if top = tagName then validateTags reg ts restOpen errs
        else validateTags reg ts openTags (errs ++ ["Mismatched closing tag: </" ++ tagName ++ ">"])
      | [] => validateTags reg ts openTags (errs ++ ["Mismatched closing tag: </" ++ tagName ++ ">"])
    else
      let openTags2 := if isSelfClosingTag tagName then openTags else tagName :: openTags
      let errs2 :=
        if reg.isSupported tagName then errs
        else errs ++ ["Unsupported tag: " ++ tagName]
      validateTags reg ts openTags2 errs2

/-- `HTMLParser.validateHTML`: rejects the empty input, walks the tag
matches for mismatched/unsupported tags, and reports tags left open. -/
def HTMLParser.validateHTML (reg : TagStrategyRegistry TagStrategy) (html : String) :
    ValidationResult :=
  if html = "" then { isValid := false, errors := ["Input must be a non-empty string"] }
  else
    let walk := validateTags reg (tokenize html) [] []
    let errs :=
      if walk.1 ≠ [] then walk.2 ++ ["Unclosed tags: " ++ joinWith ", " walk.1.reverse]
      else walk.2
    { isValid := errs.isEmpty, errors := errs }

/-- The mutable state of the token walk in `HTMLParser.parseHTML`.  The
head of `styleStack` is the JS array's last element (the top of the
stack); `listState` models the `ListTagStrategy` statics. -/
structure ParserState where
  segments : List TextSegment
  errors : List String
  currentStyle : TextStyle
  styleStack : List TextStyle
  isInListItem : Bool
  listItemPrefixAdded : Bool
  listState : ListState
deriving Repr, DecidableEq

/-- `HTMLParser.needsLineBreak`. -/
def needsLineBreak (segments : List TextSegment) : Bool :=
  match segments.getLast? with
  | none => false
  | some lastSegment => lastSegment.text ≠ "\n" && strTrim lastSegment.text ≠ ""

/-- Block-level tag names checked when a closing tag may need a trailing
line break. -/
def blockElementTags : List String := ["p", "h1", "h2", "h3", "h4", "h5", "h6", "ul", "ol"]

/-- Tag names whose opening, for a line-break strategy, pushes a style
frame (the `li`, `ul`/`ol`, `p` and heading branches of the walk). -/
def headingTagNames : List String := ["h1", "h2", "h3", "h4", "h5", "h6"]

/-- Appends a line-break marker segment carrying the current style. -/
def pushBreakSegment (st : ParserState) : ParserState :=
  { st with segments := st.segments ++ [⟨"\n", st.currentStyle⟩] }

/-- Processing of one closing-tag token (the `i % 4 === 1` branch of the
walk): list cleanup, list-item flag reset, optional trailing line break
after a block element (when meaningful content remains), then the guarded
style-stack pop. -/
def processClosingTag (closingTagName : String) (attrs : String) (rest : List Tok)
    (st : ParserState) : ParserState :=
  let st :=
    if closingTagName = "ul" ∨ closingTagName = "ol" then
      { st with listState := ListTagStrategy.handleClosingTag closingTagName st.listState }
    else st
  let st :=
    if closingTagName = "li" then
      { st with isInListItem := false, listItemPrefixAdded := false }
    else st
  let st :=
    if blockElementTags.contains closingTagName then
      let remainingContent := attrs ++ flattenToks rest
      if strTrim remainingContent ≠ "" then pushBreakSegment st else st
    else st
  if st.styleStack.length > 1 then
    let newStack := st.styleStack.tail
    { st with styleStack := newStack, currentStyle := newStack.headD st.currentStyle }
  else st

/-- The push step shared by the styling branches of an opening tag:
computes the new style via the strategy (which may throw), pushes it and
makes it current. -/
def applyAndPush (strategy : TagStrategy) (tagName attrs : String) (st : ParserState) :
    Except String ParserState :=
  match strategy.applyStyle st.currentStyle attrs (some tagName) st.listState with
  | .error e => .error e
  | .ok (newStyle, ls) =>
    .ok { st with
      styleStack := newStyle :: st.styleStack,
      currentStyle := newStyle,
      listState := ls }

/-- Processing of one opening-tag token (the `i % 4 === 2` branch of the
walk): registry lookup, optional attribute validation, then either the
line-break handling (with the `li` / list container / `p` / heading
special cases that also push a style frame) or the ordinary style push;
an unregistered tag only records an error. -/
def processOpeningTag (reg : TagStrategyRegistry TagStrategy) (tagName attrs : String)
    (st : ParserState) : Except String ParserState :=
  match reg.getStrategy tagName with
  | none => .ok { st with errors := st.errors ++ ["Unsupported tag: " ++ tagName] }
  | some strategy =>
    let st :=
      match strategy.validateAttributes with
      | some validate =>
        let v := validate attrs
        if v.1 then st else { st with errors := st.errors ++ v.2 }
      | none => st
    if strategy.isLineBreak then
      if tagName = "li" then
        let st := { st with isInListItem := true, listItemPrefixAdded := false }
        let st := if needsLineBreak st.segments then pushBreakSegment st else st
        applyAndPush strategy tagName attrs st
      else if tagName = "ul" ∨ tagName = "ol" then
        let st := if needsLineBreak st.segments then pushBreakSegment st else st
        applyAndPush strategy tagName attrs st
      else if tagName = "p" then
        let st := if needsLineBreak st.segments then pushBreakSegment st else st
        applyAndPush strategy tagName attrs st
      else if headingTagNames.contains tagName then
        let st := if needsLineBreak st.segments then pushBreakSegment st else st
        applyAndPush strategy tagName attrs st
      else
        .ok (pushBreakSegment st)
    else
      applyAndPush strategy tagName attrs st

/-- Processing of one text token (the `i % 4 === 0` branch of the walk):
non-blank text becomes a segment with the current style, preceded, inside
a list item whose marker is still pending, by a marker segment with a
reset style. -/
def processTextPart (part : String) (st : ParserState) : ParserState :=
  if strTrim part = "" then st
  else
    let withMarker : ParserState × String :=
      if st.isInListItem ∧ ¬ st.listItemPrefixAdded then
        let marker := ListTagStrategy.getListItemMarker st.listState "li"
        let markerStyle :=
          { st.currentStyle with
              textDecoration := "none", fontWeight := "normal",
              fontStyle := "normal", color := "#000000" }
        ({ st with
            segments := st.segments ++ [⟨marker, markerStyle⟩],
            listItemPrefixAdded := true },
          strTrimStart part)
      else (st, part)
    { withMarker.1 with
        segments := withMarker.1.segments ++ [⟨withMarker.2, withMarker.1.currentStyle⟩] }

/-- Processing of one token of the walk.  `rest` is the token stream after
this token (needed for the remaining-content check of a closing block
tag).  Empty parts are skipped (`if (!part) continue`), and for a tag
match the closing branch fires on the slash capture while the opening
branch fires on the name capture guarded by `parts[i-1] !== '/'`. -/
def processTok (reg : TagStrategyRegistry TagStrategy) (t : Tok) (rest : List Tok)
    (st : ParserState) : Except String ParserState :=
  match t with
  | .text part => .ok (processTextPart part st)
  | .tag slash name attrs =>
    if slash = "/" then .ok (processClosingTag (strToLower name) attrs rest st)
    else processOpeningTag reg (strToLower name) attrs st

/-- The token walk: processes `w` with `ctx` as the trailing context (the
tokens that follow `w` in the full stream). -/
def runToks (reg : TagStrategyRegistry TagStrategy) :
    List Tok → List Tok → ParserState → Except String ParserState
  | [], _, st => .ok st
  | t :: w, ctx, st =>
    match processTok reg t (w ++ ctx) st with
    | .error e => .error e
    | .ok st2 => runToks reg w ctx st2

/-- Modelled from the spec: `SpacingAnalyzer.analyzeAndAssignSpacing`
(spacing-analyzer.ts is not under src/).  Per spec §4.3 step 4 it is a
pure post-process that only adjusts inter-segment *spacing flags* based on
adjacency; on the modelled fields (text and style) it is the identity. -/
def SpacingAnalyzer.analyzeAndAssignSpacing (segments : List TextSegment) (_html : String) :
    List TextSegment := segments

/-- The record returned by `HTMLParser.parseHTML`. -/
structure ParseResult where
  segments : List TextSegment
  errors : List String
deriving Repr, DecidableEq

/-- The initial walk state: fresh default style, a one-frame style stack
holding a copy of it, cleared list flags and reset list statics. -/
def initialParserState (errors0 : List String) : ParserState :=
  { segments := [], errors := errors0, currentStyle := defaultStyle,
    styleStack := [defaultStyle], isInListItem := false,
    listItemPrefixAdded := false, listState := {} }

/-- The `try` body of `HTMLParser.parseHTML`: reset list state, tokenize,
walk the tokens, run the spacing post-pass, and build the result.  An
exception anywhere inside surfaces as `Except.error`. -/
def parseBody (reg : TagStrategyRegistry TagStrategy) (html : String)
    (errors0 : List String) : Except String ParseResult :=
  match runToks reg (tokenize html) [] (initialParserState errors0) with
  | .error e => .error e
  | .ok st =>
    .ok { segments := SpacingAnalyzer.analyzeAndAssignSpacing st.segments html,
          errors := st.errors }

/-- The validation errors `parseHTML` seeds its error list with. -/
def validationErrorList (reg : TagStrategyRegistry TagStrategy) (html : String) : List String :=
  let validation := HTMLParser.validateHTML reg html
  if validation.isValid then [] else validation.errors

/-- `HTMLParser.parseHTML`: structural validation, then the guarded token
walk; any internal failure degrades to the whole input as one
default-styled segment plus a single diagnostic error. -/
def HTMLParser.parseHTML (reg : TagStrategyRegistry TagStrategy) (html : String) : ParseResult :=
  match parseBody reg html (validationErrorList reg html) with
  | .ok r => r
  | .error e => { segments := [⟨html, defaultStyle⟩], errors := ["Parse error: " ++ e] }

/-- `HTMLToVegaLiteOptions` from types.ts (every field optional). -/
structure HTMLToVegaLiteOptions where
  fontSize : Option ℚ := none
  fontFamily : Option String := none
  startX : Option ℚ := none
  startY : Option ℚ := none
  lineHeight : Option ℚ := none
  maxWidth : Option ℚ := none
  background : Option String := none
deriving Repr, DecidableEq

/-- The instance fields of `TextLayoutEngine` (src/layout.ts).  The
`canvasContext` is `null` outside a browser (no `document` here), so
measurement always takes the fallback path. -/
structure LayoutConfig where
  fontSize : ℚ
  fontFamily : String
  startX : ℚ
  startY : ℚ
  lineHeight : ℚ
deriving Repr, DecidableEq

/-- The `TextLayoutEngine` constructor: defaults 14 / Arial / 10 / 30,
line height `fontSize * 1.4` unless given (`??` is nullish coalescing). -/
def TextLayoutEngine.create (options : HTMLToVegaLiteOptions) : LayoutConfig :=
  let fontSize := options.fontSize.getD 14
  { fontSize := fontSize,
    fontFamily := options.fontFamily.getD "Arial, sans-serif",
    startX := options.startX.getD 10,
    startY := options.startY.getD 30,
    lineHeight := options.lineHeight.getD (fontSize * 1.4) }

/-- `TextLayoutEngine.updateOptions`: a new font size recomputes the line
height unless a line height is supplied in the same update; an explicit
line height always wins. -/
def TextLayoutEngine.updateOptions (cfg : LayoutConfig) (options : HTMLToVegaLiteOptions) :
    LayoutConfig :=
  let cfg :=
    match options.fontSize with
    | some f => { cfg with fontSize := f, lineHeight := options.lineHeight.getD (f * 1.4) }
    | none => cfg
  let cfg :=
    match options.fontFamily with
    | some ff => { cfg with fontFamily := ff }
    | none => cfg
  let cfg :=
    match options.startX with
    | some x => { cfg with startX := x }
    | none => cfg
  let cfg :=
    match options.startY with
    | some y => { cfg with startY := y }
    | none => cfg
  match options.lineHeight with
  | some lh => { cfg with lineHeight := lh }
  | none => cfg

/-- `TextMeasurement` from types.ts. -/
structure TextMeasurement where
  width : ℚ
  height : ℚ
deriving Repr, DecidableEq

/-- `TextLayoutEngine.measureTextFallback`: approximate character width
`0.6 × fontSize`, widened ×1.15 for bold and ×1.05 for italic; height is
the font size.  (`style.fontSize || this.fontSize` treats 0 as unset.) -/
def measureTextFallback (cfg : LayoutConfig) (text : String) (style : TextStyle) :
    TextMeasurement :=
  let fontSize := jsOrQ style.fontSize cfg.fontSize
  let charWidth := fontSize * 0.6
  let charWidth := if style.fontWeight = "bold" then charWidth * 1.15 else charWidth
  let charWidth := if style.fontStyle = "italic" then charWidth * 1.05 else charWidth
  { width := (text.length : ℚ) * charWidth, height := fontSize }

/-- `TextLayoutEngine.measureText`.  With no browser `document` the canvas
context is `null`, so this is the fallback measurement. -/
def measureText (cfg : LayoutConfig) (text : String) (style : TextStyle) : TextMeasurement :=
  measureTextFallback cfg text style

/-- The `inverseHeadingSizes` table of constants.ts (in src/unnamed/part_004):
a record keyed by the strings '32', '24', '18.72', '16', '13.28', '10.72'.
layout.ts indexes it with a number (`segment.fontSize ?? 0`), which JS
coerces to its decimal string, so the lookup is by numeric value. -/
def inverseHeadingSizes (size : ℚ) : Option String :=
  if size = 32 then some "h1"
  else if size = 24 then some "h2"
  else if size = (18.72 : ℚ) then some "h3"
  else if size = 16 then some "h4"
  else if size = (13.28 : ℚ) then some "h5"
  else if size = (10.72 : ℚ) then some "h6"
  else none

/-- `TextLayoutEngine.isHeadingStyle`: bold and a font size that is exactly
a known heading size (`segment.fontSize ?? 0`). -/
def isHeadingStyle (segment : TextSegment) : Bool :=
  segment.style.fontWeight = "bold" && (inverseHeadingSizes (segment.style.fontSize.getD 0)).isSome

/-- The `colorMap` table of constants.ts (in src/unnamed/part_004). -/
def colorMap : List (String × String) :=
  [("red", "#FF0000"), ("green", "#00FF00"), ("blue", "#0000FF"),
   ("yellow", "#FFFF00"), ("orange", "#FFA500"), ("purple", "#800080"),
   ("black", "#000000")]

/-- `colorMap['black']`, the comparison value in `isUnstyledSegment`. -/
def colorMapBlack : String := (mapGet colorMap "black").getD ""

/-- `TextLayoutEngine.isUnstyledSegment`: fully default-styled text
(normal weight and slant, no decoration, black or absent color). -/
def isUnstyledSegment (segment : TextSegment) : Bool :=
  let color := strToLower segment.style.color
  segment.style.fontWeight = "normal" && segment.style.fontStyle = "normal" &&
    segment.style.textDecoration = "none" && (color = "" || color = colorMapBlack)

/-- `PositionedTextSegment` from types.ts. -/
structure PositionedTextSegment where
  text : String
  style : TextStyle
  x : ℚ
  y : ℚ
  width : ℚ
  height : ℚ
deriving Repr, DecidableEq

/-- The greedy word-accumulation loop of the word-wrap branch of
`TextLayoutEngine.layoutSegments`: flushes the line buffer as a positioned
fragment whenever the next word would overflow a non-empty buffer.
Returns the emitted fragments, the cursor, and the unflushed buffer. -/
def layoutWrapWords (cfg : LayoutConfig) (style : TextStyle) (wrapWidth : ℚ) :
    List String → String → ℚ → ℚ → List PositionedTextSegment →
    List PositionedTextSegment × ℚ × ℚ × String
  | [], currentLine, x, y, out => (out, x, y, currentLine)
  | word :: ws, currentLine, x, y, out =>
    if word = "" then layoutWrapWords cfg style wrapWidth ws currentLine x y out
    else
      let testLine := if currentLine ≠ "" then currentLine ++ " " ++ word else word
      let testMeasurement := measureText cfg testLine style
      if testMeasurement.width > wrapWidth ∧ currentLine ≠ "" then
        let lineMeasurement := measureText cfg currentLine style
        let out := out ++
          [{ text := currentLine, style := style, x := x, y := y,
             width := lineMeasurement.width, height := lineMeasurement.height }]
        layoutWrapWords cfg style wrapWidth ws word cfg.startX (y + cfg.lineHeight) out
      else layoutWrapWords cfg style wrapWidth ws testLine x y out

/-- The per-segment loop of `TextLayoutEngine.layoutSegments`: explicit
line-break markers advance the cursor; over-wide space-containing segments
are word-wrapped; everything else is placed on the current line (breaking
first if it would overflow mid-line) bottom-aligned in a slot of height
`max(lineHeight, measured height)`, with the 2px nudge for unstyled text
and the pre/post heading spacing. -/
def layoutSegmentsAux (cfg : LayoutConfig) (wrapWidth : ℚ) :
    List TextSegment → ℚ → ℚ → List PositionedTextSegment → List PositionedTextSegment
  | [], _, _, out => out
  | seg :: rest, currentX, currentY, out =>
    if seg.text = "\n" then
      layoutSegmentsAux cfg wrapWidth rest cfg.startX (currentY + cfg.lineHeight) out
    else
      let measurement := measureText cfg seg.text seg.style
      let segmentLineHeight := qMax cfg.lineHeight measurement.height
      let isHeading := isHeadingStyle seg
      let adjusted : ℚ × ℚ :=
        if isHeading ∧ currentX > cfg.startX then
          (cfg.startX, currentY + segmentLineHeight * 0.75)
        else (currentX, currentY)
      let currentX := adjusted.1
      let currentY := adjusted.2
      if measurement.width > wrapWidth ∧ strContainsChar seg.text ' ' then
        let wrapped := layoutWrapWords cfg seg.style wrapWidth
          (jsSplitOnChar ' ' seg.text) "" currentX currentY out
        let out := wrapped.1
        let x := wrapped.2.1
        let y := wrapped.2.2.1
        let currentLine := wrapped.2.2.2
        if currentLine ≠ "" then
          let lineMeasurement := measureText cfg currentLine seg.style
          let out := out ++
            [{ text := currentLine, style := seg.style, x := x, y := y,
               width := lineMeasurement.width, height := lineMeasurement.height }]
          layoutSegmentsAux cfg wrapWidth rest (x + lineMeasurement.width) y out
        else layoutSegmentsAux cfg wrapWidth rest x y out
      else
        let broke : ℚ × ℚ :=
          if currentX > cfg.startX ∧ currentX + measurement.width > wrapWidth then
            (cfg.startX, currentY + segmentLineHeight)
          else (currentX, currentY)
        let currentX := broke.1
        let currentY := broke.2
        let offsetX : ℚ := if isUnstyledSegment seg then 2 else 0
        let out := out ++
          [{ text := seg.text, style := seg.style,
             x := currentX + offsetX,
             y := currentY + (segmentLineHeight - measurement.height),
             width := measurement.width, height := measurement.height }]
        let currentX := currentX + measurement.width
        let spaceMeasurement := measureText cfg " " seg.style
        let currentX := currentX + spaceMeasurement.width
        let post : ℚ × ℚ :=
          if isHeading then (cfg.startX, currentY + segmentLineHeight * 1.2)
          else (currentX, currentY)
        layoutSegmentsAux cfg wrapWidth rest post.1 post.2 out

/-- `TextLayoutEngine.layoutSegments` (wrap width defaults to 400). -/
def layoutSegments (cfg : LayoutConfig) (segments : List TextSegment)
    (maxWidth : Option ℚ) : List PositionedTextSegment :=
  layoutSegmentsAux cfg (maxWidth.getD 400) segments cfg.startX cfg.startY []

/-- A strategy used only to exhibit an internal failure: its `applyStyle`
throws (any user-registered strategy may). -/
def badStrategy : TagStrategy :=
  { tagNames := ["bad"], applyStyle := fun _ _ _ _ => .error "Unknown error" }

/-- The number of opening-tag tokens whose lowercased name is `n` and has
no registered strategy (each contributes one "Unsupported tag" error in
the validation pre-pass and one in the token walk). -/
def unsupportedOpenCount (reg : TagStrategyRegistry TagStrategy) (n : String) :
    List Tok → Nat
  | [] => 0
  | .text _ :: ts => unsupportedOpenCount reg n ts
  | .tag slash name _ :: ts =>
    (if slash ≠ "/" ∧ strToLower name = n ∧ (reg.getStrategy (strToLower name)).isNone
     then 1 else 0) + unsupportedOpenCount reg n ts

lemma processTextPart_style (part : String) (st : ParserState) :
    (processTextPart part st).currentStyle = st.currentStyle ∧
    (processTextPart part st).styleStack = st.styleStack := by
  unfold processTextPart
  split_ifs <;> simp

lemma processClosingTag_stack (cn attrs : String) (rest : List Tok) (st : ParserState) :
    (processClosingTag cn attrs rest st).styleStack =
      (if 1 < st.styleStack.length then st.styleStack.tail else st.styleStack) ∧
    (processClosingTag cn attrs rest st).currentStyle =
      (if 1 < st.styleStack.length then st.styleStack.tail.headD st.currentStyle
       else st.currentStyle) := by
  unfold processClosingTag pushBreakSegment
  by_cases h1 : cn = "ul" ∨ cn = "ol" <;>
  by_cases h2 : cn = "li" <;>
  by_cases h3 : cn ∈ blockElementTags <;>
  by_cases h4 : strTrim (attrs ++ flattenToks rest) = "" <;>
  by_cases h5 : 1 < st.styleStack.length <;>
  simp +decide [h1, h2, h3, h4, h5]


/-- The tag names whose opening, given a line-break strategy, still pushes
a style frame (the special-cased branches of the walk). -/
def pushBranchTags : List String := ["li", "ul", "ol", "p", "h1", "h2", "h3", "h4", "h5", "h6"]

/-- A tag occurrence t is a registered *styling* tag: its (lowercased)
name resolves to a strategy, and the open branch pushes a style frame —
either an ordinary styling strategy, or a line-break strategy handled by
one of the block branches (`li`, `ul`/`ol`, `p`, headings). -/
def OpensStyleFrame (reg : TagStrategyRegistry TagStrategy) (name : String) : Prop :=
  ∃ s, reg.getStrategy (strToLower name) = some s ∧
    (s.isLineBreak = false ∨ strToLower name ∈ pushBranchTags)

lemma applyAndPush_stack {strategy : TagStrategy} {tagName attrs : String}
    {st st' : ParserState} (h : applyAndPush strategy tagName attrs st = .ok st') :
    st'.styleStack = st'.currentStyle :: st.styleStack := by
  unfold applyAndPush at h
  cases hap : strategy.applyStyle st.currentStyle attrs (some tagName) st.listState with
  | error e => rw [hap] at h; cases h
  | ok p =>
    cases p with
    | mk ns ls =>
      rw [hap] at h
      cases h
      simp

lemma pushBreakSegment_stack (st : ParserState) :
    (pushBreakSegment st).styleStack = st.styleStack ∧
    (pushBreakSegment st).currentStyle = st.currentStyle := by
  simp [pushBreakSegment]

lemma processOpeningTag_push {reg : TagStrategyRegistry TagStrategy} {tagName attrs : String}
    {st st' : ParserState}
    (hp : ∃ s, reg.getStrategy tagName = some s ∧
      (s.isLineBreak = false ∨ tagName ∈ pushBranchTags))
    (h : processOpeningTag reg tagName attrs st = .ok st') :
    st'.styleStack = st'.currentStyle :: st.styleStack := by
  obtain ⟨s, hs, hd⟩ := hp
  rw [processOpeningTag, hs] at h
  dsimp only at h
  cases hv : s.validateAttributes with
  | none =>
    rw [hv] at h
    cases hb : s.isLineBreak with
    | false =>
      rw [hb] at h
      simp only [Bool.false_eq_true, if_false] at h
      exact applyAndPush_stack h
    | true =>
      rw [hb] at h
      simp only [if_true] at h
      rcases hd with hd | hd
      · rw [hb] at hd; cases hd
      · simp only [pushBranchTags, List.mem_cons, List.not_mem_nil, or_false] at hd
        rcases hd with rfl | rfl | rfl | rfl | rfl | rfl | rfl | rfl | rfl | rfl <;>
          simp only [reduceIte, headingTagNames] at h <;>
          (try split at h) <;>
          (have h2 := applyAndPush_stack h
           simpa [apply_ite ParserState.styleStack, pushBreakSegment] using h2)
  | some validate =>
    rw [hv] at h
    dsimp only at h
    split at h
    · rename_i hb
      rcases hd with hd | hd
      · rw [hd] at hb; cases hb
      · simp only [pushBranchTags, List.mem_cons, List.not_mem_nil, or_false] at hd
        rcases hd with rfl | rfl | rfl | rfl | rfl | rfl | rfl | rfl | rfl | rfl <;>
          simp only [reduceIte, headingTagNames] at h <;>
          (try split at h) <;>
          (have h2 := applyAndPush_stack h
           simpa [apply_ite ParserState.styleStack, pushBreakSegment] using h2)
    · have h2 := applyAndPush_stack h
      simpa [apply_ite ParserState.styleStack] using h2

lemma runToks_append (reg : TagStrategyRegistry TagStrategy) (w₁ w₂ ctx : List Tok)
    (st : ParserState) :
    runToks reg (w₁ ++ w₂) ctx st =
      (match runToks reg w₁ (w₂ ++ ctx) st with
       | .error e => .error e
       | .ok st2 => runToks reg w₂ ctx st2) := by
  induction w₁ generalizing st with
  | nil => simp [runToks]
  | cons t w ih =>
    show runToks reg (t :: (w ++ w₂)) ctx st = _
    simp only [runToks]
    rw [List.append_assoc]
    cases processTok reg t (w ++ (w₂ ++ ctx)) st with
    | error e => rfl
    | ok st2 => exact ih st2

/-- Token sequences that are well-formed nestings of registered styling
tags: text anywhere, and every opening tag is a style-frame-pushing tag
matched by a closing tag of the same (lowercased) name, properly nested. -/
inductive WellNested (reg : TagStrategyRegistry TagStrategy) : List Tok → Prop where
  | nil : WellNested reg []
  | text (s : String) {w : List Tok} : WellNested reg w → WellNested reg (Tok.text s :: w)
  | node {t a c a' : String} {w₁ w₂ : List Tok} :
      OpensStyleFrame reg t → strToLower c = strToLower t →
      WellNested reg w₁ → WellNested reg w₂ →
      WellNested reg (Tok.tag "" t a :: (w₁ ++ (Tok.tag "/" c a' :: w₂)))

lemma wellNested_run_preserves {reg : TagStrategyRegistry TagStrategy} {w : List Tok}
    (hw : WellNested reg w) :
    ∀ (ctx : List Tok) (st st' : ParserState) (restStack : List TextStyle),
      st.styleStack = st.currentStyle :: restStack →
      runToks reg w ctx st = .ok st' →
      st'.currentStyle = st.currentStyle ∧ st'.styleStack = st.styleStack := by
  induction hw with
  | nil =>
    intro ctx st st' rs hstack h
    simp only [runToks] at h
    cases h
    exact ⟨rfl, rfl⟩
  | text s hw ih =>
    intro ctx st st' rs hstack h
    simp only [runToks, processTok] at h
    obtain ⟨e1, e2⟩ := processTextPart_style s st
    obtain ⟨f1, f2⟩ := ih _ _ _ rs (by rw [e2, e1, hstack]) h
    exact ⟨f1.trans e1, f2.trans e2⟩
  | node hopen hc hw1 hw2 ih1 ih2 =>
    rename_i t a c a' w₁ w₂
    intro ctx st st' rs hstack h
    simp only [runToks] at h
    cases hp : processTok reg (.tag "" t a) ((w₁ ++ (Tok.tag "/" c a' :: w₂)) ++ ctx) st with
    | error e => rw [hp] at h; cases h
    | ok st1 =>
      rw [hp] at h
      dsimp only at h
      have hp' : processOpeningTag reg (strToLower t) a st = .ok st1 := by
        simpa [processTok] using hp
      have hpush : st1.styleStack = st1.currentStyle :: st.styleStack :=
        processOpeningTag_push hopen hp'
      rw [runToks_append] at h
      cases h1 : runToks reg w₁ ((Tok.tag "/" c a' :: w₂) ++ ctx) st1 with
      | error e => rw [h1] at h; cases h
      | ok st2 =>
        rw [h1] at h
        obtain ⟨e1, e2⟩ := ih1 _ _ _ st.styleStack hpush h1
        simp only [List.cons_append, runToks, processTok, reduceIte] at h
        obtain ⟨f1, f2⟩ :=
          processClosingTag_stack (strToLower c) a' (w₂ ++ ctx) st2
        have hlen : 1 < st2.styleStack.length := by
          rw [e2, hpush, hstack]; simp
        rw [if_pos hlen] at f1 f2
        set st3 := processClosingTag (strToLower c) a' (w₂ ++ ctx) st2 with hst3
        have g1 : st3.currentStyle = st.currentStyle := by
          rw [f2, e2, hpush, hstack]
          simp
        have g2 : st3.styleStack = st.styleStack := by
          rw [f1, e2, hpush]
          simp
        obtain ⟨k1, k2⟩ := ih2 _ _ _ rs (by rw [g2, g1, hstack]) h
        exact ⟨k1.trans g1, k2.trans g2⟩

/-- C1: for every well-formed nesting of registered styling tags, the style
in effect (and the whole style stack) after the parser processes the
closing tag token equals the style in effect immediately before it
processed the matching opening tag token — the push on the opening tag and
the pop on the closing tag are exact inverses. -/
theorem stylePushPop_exact_inverse :
    ∀ (reg : TagStrategyRegistry TagStrategy) (t a c a' : String) (w ctx : List Tok)
      (st st' : ParserState) (restStack : List TextStyle),
      OpensStyleFrame reg t →
      strToLower c = strToLower t →
      WellNested reg w →
      st.styleStack = st.currentStyle :: restStack →
      runToks reg (Tok.tag "" t a :: (w ++ [Tok.tag "/" c a'])) ctx st = .ok st' →
      st'.currentStyle = st.currentStyle ∧ st'.styleStack = st.styleStack := by
  intro reg t a c a' w ctx st st' rs ho hc hw hstack h
  have hn : WellNested reg (Tok.tag "" t a :: (w ++ (Tok.tag "/" c a' :: ([] : List Tok)))) :=
    WellNested.node ho hc hw WellNested.nil
  exact wellNested_run_preserves hn ctx st st' rs hstack h

/-- Witness for `stylePushPop_exact_inverse`: parsing `<b>hi</b>` from the
initial parser state restores the default style and the one-frame stack. -/
theorem stylePushPop_exact_inverse_witness :
    (runToks createDefaultTagStrategyRegistry
        [Tok.tag "" "b" "", Tok.text "hi", Tok.tag "/" "b" ""] []
        (initialParserState [])).toOption.map
      (fun s => (s.currentStyle, s.styleStack)) = some (defaultStyle, [defaultStyle]) := by
  have hsome : (runToks createDefaultTagStrategyRegistry
      [Tok.tag "" "b" "", Tok.text "hi", Tok.tag "/" "b" ""] []
      (initialParserState [])).toOption.isSome = true := by decide
  cases hrun : runToks createDefaultTagStrategyRegistry
      [Tok.tag "" "b" "", Tok.text "hi", Tok.tag "/" "b" ""] []
      (initialParserState []) with
  | error e => rw [hrun] at hsome; simp [Except.toOption] at hsome
  | ok stF =>
    have hm := stylePushPop_exact_inverse createDefaultTagStrategyRegistry "b" "" "b" ""
      [Tok.text "hi"] [] (initialParserState []) stF []
      ⟨boldStrategy, rfl, Or.inl rfl⟩ rfl (WellNested.text "hi" WellNested.nil) rfl hrun
    simp only [Except.toOption, Option.map]
    rw [hm.1, hm.2]
    rfl

/-- C9 (implicit): every closing-tag token pops one frame off the style
stack whenever more than the bottom default frame is present — regardless
of the tag name, so a stray or unsupported closing tag silently removes
the innermost open style; only a sole bottom frame is never popped. -/
theorem closingTag_always_pops :
    ∀ (reg : TagStrategyRegistry TagStrategy) (name attrs : String) (rest : List Tok)
      (st : ParserState),
      (1 < st.styleStack.length →
        (processTok reg (.tag "/" name attrs) rest st).toOption.map
          (fun s => (s.currentStyle, s.styleStack)) =
            some (st.styleStack.tail.headD st.currentStyle, st.styleStack.tail)) ∧
      (st.styleStack.length ≤ 1 →
        (processTok reg (.tag "/" name attrs) rest st).toOption.map
          (fun s => (s.currentStyle, s.styleStack)) =
            some (st.currentStyle, st.styleStack)) := by
  intro reg name attrs rest st
  have hcs := processClosingTag_stack (strToLower name) attrs rest st
  have hstep : processTok reg (.tag "/" name attrs) rest st =
      .ok (processClosingTag (strToLower name) attrs rest st) := by
    simp [processTok]
  constructor
  · intro h
    rw [hstep]
    simp only [Except.toOption, Option.map]
    rw [hcs.1, hcs.2, if_pos h, if_pos h]
  · intro h
    have h' : ¬ 1 < st.styleStack.length := by omega
    rw [hstep]
    simp only [Except.toOption, Option.map]
    rw [hcs.1, hcs.2, if_neg h', if_neg h']

/-- Witness for `closingTag_always_pops`: a closing `</zzz>` token over a
two-frame stack pops the bold frame and restores the default style. -/
theorem closingTag_always_pops_witness :
    (processTok createDefaultTagStrategyRegistry (.tag "/" "zzz" "") []
        { segments := [], errors := [], currentStyle := { defaultStyle with fontWeight := "bold" },
          styleStack := [{ defaultStyle with fontWeight := "bold" }, defaultStyle],
          isInListItem := false, listItemPrefixAdded := false,
          listState := {} }).toOption.map
      (fun s => (s.currentStyle, s.styleStack)) = some (defaultStyle, [defaultStyle]) := by
  have h := (closingTag_always_pops createDefaultTagStrategyRegistry "zzz" "" []
    { segments := [], errors := [], currentStyle := { defaultStyle with fontWeight := "bold" },
      styleStack := [{ defaultStyle with fontWeight := "bold" }, defaultStyle],
      isInListItem := false, listItemPrefixAdded := false, listState := {} }).1 (by decide)
  simpa using h

/-- C2: `parseHTML` never throws past its boundary — it is a total function
into `{segments, errors}` — and whenever the token walk fails internally
(any strategy may throw), the result is exactly one segment holding the
entire input with the default style plus a single diagnostic error. -/
theorem parseHTML_internal_failure_fallback :
    ∀ (reg : TagStrategyRegistry TagStrategy) (html e : String),
      parseBody reg html (validationErrorList reg html) = .error e →
      HTMLParser.parseHTML reg html =
        { segments := [⟨html, defaultStyle⟩], errors := ["Parse error: " ++ e] } := by
  intro reg html e h
  rw [HTMLParser.parseHTML, h]

/-- Witness for `parseHTML_internal_failure_fallback`: a registry holding a
throwing strategy makes the walk fail, and `parseHTML` degrades to the
whole input as one default-styled segment plus one diagnostic error. -/
theorem parseHTML_internal_failure_fallback_witness :
    HTMLParser.parseHTML (parserRegistry [badStrategy]) "<bad>x</bad>" =
      { segments := [⟨"<bad>x</bad>", defaultStyle⟩],
        errors := ["Parse error: Unknown error"] } := by
  have h := parseHTML_internal_failure_fallback (parserRegistry [badStrategy])
    "<bad>x</bad>" "Unknown error" (by rfl)
  simpa using h

/-- C6: parsing `"<zzz>hi</zzz>"` with the default registry yields exactly
one segment `"hi"` with the default style plus errors mentioning the tag
name; in general an unknown opening tag only records an error and leaves
the current style, stack and segments untouched, so the inner text is
preserved with the current, unmodified style. -/
theorem unsupportedTag_text_preserved :
    ((HTMLParser.parseHTML createDefaultTagStrategyRegistry "<zzz>hi</zzz>").segments =
        [⟨"hi", defaultStyle⟩] ∧
      "Unsupported tag: zzz" ∈
        (HTMLParser.parseHTML createDefaultTagStrategyRegistry "<zzz>hi</zzz>").errors) ∧
    (∀ (reg : TagStrategyRegistry TagStrategy) (name attrs : String) (rest : List Tok)
        (st : ParserState),
      reg.getStrategy (strToLower name) = none →
      processTok reg (.tag "" name attrs) rest st =
        .ok { st with errors := st.errors ++ ["Unsupported tag: " ++ strToLower name] }) := by
  constructor
  · constructor
    · decide
    · decide
  · intro reg name attrs rest st h
    simp only [processTok, reduceIte, processOpeningTag, h]
    rw [if_neg (by decide : ¬("" : String) = "/")]

/-- Witness for `unsupportedTag_text_preserved`: the unknown-tag step at a
concrete input records exactly the diagnostic error. -/
theorem unsupportedTag_text_preserved_witness :
    processTok createDefaultTagStrategyRegistry (.tag "" "zzz" "") [] (initialParserState []) =
      .ok { initialParserState [] with errors := ["Unsupported tag: zzz"] } := by
  have h := unsupportedTag_text_preserved.2 createDefaultTagStrategyRegistry "zzz" "" []
    (initialParserState []) (by rfl)
  simpa [initialParserState] using h

/-- C3: the heading handler maps `h1`..`h6` to font sizes exactly
32, 24, 18.72, 16, 13.28, 10.72 and always sets bold weight; an
unrecognized heading tag name falls back to size 16, and an absent tag
name falls back to the current font size (or 16). -/
theorem headingStrategy_size_table :
    ∀ (c : TextStyle) (attrs : String),
      ((HeadingTagStrategy.applyStyle c attrs (some "h1")).fontSize = some 32 ∧
        (HeadingTagStrategy.applyStyle c attrs (some "h2")).fontSize = some 24 ∧
        (HeadingTagStrategy.applyStyle c attrs (some "h3")).fontSize = some (18.72 : ℚ) ∧
        (HeadingTagStrategy.applyStyle c attrs (some "h4")).fontSize = some 16 ∧
        (HeadingTagStrategy.applyStyle c attrs (some "h5")).fontSize = some (13.28 : ℚ) ∧
        (HeadingTagStrategy.applyStyle c attrs (some "h6")).fontSize = some (10.72 : ℚ)) ∧
      (∀ t : Option String, (HeadingTagStrategy.applyStyle c attrs t).fontWeight = "bold") ∧
      (∀ n : String, HeadingTagStrategy.headingSizes (strToLower n) = none →
        (HeadingTagStrategy.applyStyle c attrs (some n)).fontSize = some 16) ∧
      (HeadingTagStrategy.applyStyle c attrs none).fontSize = some (jsOrQ c.fontSize 16) := by
  intro c attrs
  refine ⟨⟨?_, ?_, ?_, ?_, ?_, ?_⟩, ?_, ?_, ?_⟩
  · show some (jsOrQ (HeadingTagStrategy.headingSizes (strToLower "h1")) 16) = _
    norm_num [show HeadingTagStrategy.headingSizes (strToLower "h1") = some 32 from rfl, jsOrQ]
  · show some (jsOrQ (HeadingTagStrategy.headingSizes (strToLower "h2")) 16) = _
    norm_num [show HeadingTagStrategy.headingSizes (strToLower "h2") = some 24 from rfl, jsOrQ]
  · show some (jsOrQ (HeadingTagStrategy.headingSizes (strToLower "h3")) 16) = _
    norm_num [show HeadingTagStrategy.headingSizes (strToLower "h3") = some (18.72 : ℚ) from rfl, jsOrQ]
  · show some (jsOrQ (HeadingTagStrategy.headingSizes (strToLower "h4")) 16) = _
    norm_num [show HeadingTagStrategy.headingSizes (strToLower "h4") = some 16 from rfl, jsOrQ]
  · show some (jsOrQ (HeadingTagStrategy.headingSizes (strToLower "h5")) 16) = _
    norm_num [show HeadingTagStrategy.headingSizes (strToLower "h5") = some (13.28 : ℚ) from rfl, jsOrQ]
  · show some (jsOrQ (HeadingTagStrategy.headingSizes (strToLower "h6")) 16) = _
    norm_num [show HeadingTagStrategy.headingSizes (strToLower "h6") = some (10.72 : ℚ) from rfl, jsOrQ]
  · intro t
    cases t <;> rfl
  · intro n h
    show some (jsOrQ (HeadingTagStrategy.headingSizes (strToLower n)) 16) = _
    rw [h]
    rfl
  · rfl

/-- Witness for `headingStrategy_size_table`: `h1` maps to 32 and the
unrecognized name `h7` falls back to 16. -/
theorem headingStrategy_size_table_witness :
    (HeadingTagStrategy.applyStyle defaultStyle "" (some "h1")).fontSize = some 32 ∧
    (HeadingTagStrategy.applyStyle defaultStyle "" (some "h7")).fontSize = some 16 ∧
    (HeadingTagStrategy.applyStyle defaultStyle "" (some "h7")).fontWeight = "bold" := by
  refine ⟨(headingStrategy_size_table defaultStyle "").1.1, ?_, ?_⟩
  · exact (headingStrategy_size_table defaultStyle "").2.2.1 "h7" (by rfl)
  · exact (headingStrategy_size_table defaultStyle "").2.1 (some "h7")

/-- C8: the effective line height defaults to `1.4 × fontSize` at
construction when not supplied; on `updateOptions`, a new font size
recomputes the line height to `1.4 ×` the new size only when no line
height is supplied in the same update (a supplied line height wins), and
an update mentioning neither field leaves the line height unchanged. -/
theorem lineHeight_update_policy :
    (∀ o : HTMLToVegaLiteOptions, o.lineHeight = none →
      (TextLayoutEngine.create o).lineHeight = (o.fontSize.getD 14) * 1.4) ∧
    (∀ (cfg : LayoutConfig) (o : HTMLToVegaLiteOptions) (f : ℚ),
      o.fontSize = some f → o.lineHeight = none →
      (TextLayoutEngine.updateOptions cfg o).lineHeight = f * 1.4) ∧
    (∀ (cfg : LayoutConfig) (o : HTMLToVegaLiteOptions) (lh : ℚ),
      o.lineHeight = some lh → (TextLayoutEngine.updateOptions cfg o).lineHeight = lh) ∧
    (∀ (cfg : LayoutConfig) (o : HTMLToVegaLiteOptions),
      o.fontSize = none → o.lineHeight = none →
      (TextLayoutEngine.updateOptions cfg o).lineHeight = cfg.lineHeight) := by
  refine ⟨?_, ?_, ?_, ?_⟩
  · intro o h
    simp [TextLayoutEngine.create, h]
  · intro cfg o f hf hlh
    obtain ⟨fs, ff, sx, sy, lh, mw, bg⟩ := o
    cases hf
    cases hlh
    cases ff <;> cases sx <;> cases sy <;> rfl
  · intro cfg o lh hlh
    obtain ⟨fs, ff, sx, sy, lh', mw, bg⟩ := o
    cases hlh
    cases fs <;> cases ff <;> cases sx <;> cases sy <;> rfl
  · intro cfg o hf hlh
    obtain ⟨fs, ff, sx, sy, lh, mw, bg⟩ := o
    cases hf
    cases hlh
    cases ff <;> cases sx <;> cases sy <;> rfl

/-- Witness for `lineHeight_update_policy` at concrete inputs: default
construction gives 1.4 × 14; updating the font size to 20 recomputes 28;
a pinned line height of 22 wins; an empty update changes nothing. -/
theorem lineHeight_update_policy_witness :
    (TextLayoutEngine.create {}).lineHeight = 14 * 1.4 ∧
    (TextLayoutEngine.updateOptions (TextLayoutEngine.create {})
      { fontSize := some 20 }).lineHeight = 20 * 1.4 ∧
    (TextLayoutEngine.updateOptions (TextLayoutEngine.create {})
      { fontSize := some 20, lineHeight := some 22 }).lineHeight = 22 ∧
    (TextLayoutEngine.updateOptions (TextLayoutEngine.create {}) {}).lineHeight =
      (TextLayoutEngine.create {}).lineHeight := by
  refine ⟨?_, ?_, ?_, ?_⟩
  · simpa using lineHeight_update_policy.1 {} rfl
  · exact lineHeight_update_policy.2.1 _ _ 20 rfl rfl
  · exact lineHeight_update_policy.2.2.1 _ _ 22 rfl
  · exact lineHeight_update_policy.2.2.2 _ _ rfl rfl

lemma layoutWrapWords_invariant (cfg : LayoutConfig) (style : TextStyle) (W : ℚ)
    (allWords : List String) :
    ∀ (words : List String) (currentLine : String) (x y : ℚ)
      (out : List PositionedTextSegment),
      (∀ f ∈ out, (f.width ≤ W ∨ f.text ∈ allWords) ∧ f.style = style) →
      (currentLine = "" ∨ (measureText cfg currentLine style).width ≤ W ∨
        currentLine ∈ allWords) →
      (∀ w ∈ words, w ∈ allWords) →
      (∀ f ∈ (layoutWrapWords cfg style W words currentLine x y out).1,
        (f.width ≤ W ∨ f.text ∈ allWords) ∧ f.style = style) ∧
      ((layoutWrapWords cfg style W words currentLine x y out).2.2.2 = "" ∨
        (measureText cfg (layoutWrapWords cfg style W words currentLine x y out).2.2.2
          style).width ≤ W ∨
        (layoutWrapWords cfg style W words currentLine x y out).2.2.2 ∈ allWords) := by
  intro words
  induction words with
  | nil =>
    intro currentLine x y out hout hline hw
    exact ⟨hout, hline⟩
  | cons word ws ih =>
    intro currentLine x y out hout hline hw
    by_cases hempty : word = ""
    · rw [layoutWrapWords, if_pos hempty]
      exact ih currentLine x y out hout hline (fun w hwmem => hw w (List.mem_cons_of_mem _ hwmem))
    · rw [layoutWrapWords, if_neg hempty]
      by_cases hflush :
          (measureText cfg (if currentLine ≠ "" then currentLine ++ " " ++ word
            else word) style).width > W ∧ currentLine ≠ "" 
      · rw [if_pos hflush]
        apply ih
        · intro f hf
          rcases List.mem_append.mp hf with hf | hf
          · exact hout f hf
          · rcases List.mem_singleton.mp hf with rfl
            refine ⟨?_, rfl⟩
            rcases hline with hline | hline | hline
            · exact absurd hline hflush.2
            · exact Or.inl hline
            · exact Or.inr hline
        · exact Or.inr (Or.inr (hw word (List.mem_cons_self _ _)))
        · exact fun w hwmem => hw w (List.mem_cons_of_mem _ hwmem)
      · rw [if_neg hflush]
        apply ih
        · exact hout
        · by_cases hcl : currentLine = ""
          · rw [if_neg (by simp [hcl])]
            exact Or.inr (Or.inr (hw word (List.mem_cons_self _ _)))
          · rw [if_pos hcl]
            right; left
            rw [if_pos hcl] at hflush
            by_contra hgt
            push_neg at hgt
            exact hflush ⟨hgt, hcl⟩
        · exact fun w hwmem => hw w (List.mem_cons_of_mem _ hwmem)

/-- C4: for every wrap width `W` and single segment whose full measured
width exceeds `W` and whose text contains a space, every fragment produced
by `layoutSegments` either measures at most `W` or is one of the
space-separated words of the segment (an unsplittable word alone on its
line may overflow); and every fragment carries the original segment's full
style.  Layout is a total function, so it cannot crash on such input. -/
theorem layoutSegments_word_wrap_bound :
    ∀ (cfg : LayoutConfig) (W : ℚ) (seg : TextSegment) (f : PositionedTextSegment),
      (measureText cfg seg.text seg.style).width > W →
      strContainsChar seg.text ' ' = true →
      f ∈ layoutSegments cfg [seg] (some W) →
      (f.width ≤ W ∨ f.text ∈ jsSplitOnChar ' ' seg.text) ∧ f.style = seg.style := by
  intro cfg W seg f hw hc hf
  have hne : seg.text ≠ "\n" := by
    intro h; rw [h] at hc; exact absurd hc (by decide)
  rw [layoutSegments, show (some W).getD 400 = W from rfl] at hf
  rw [layoutSegmentsAux, if_neg hne] at hf
  simp only at hf
  rw [if_neg (fun hpre => lt_irrefl cfg.startX
    (And.right (hpre : isHeadingStyle seg = true ∧ cfg.startX > cfg.startX)))] at hf
  rw [if_pos ⟨hw, hc⟩] at hf
  have hinv := layoutWrapWords_invariant cfg seg.style W (jsSplitOnChar ' ' seg.text)
    (jsSplitOnChar ' ' seg.text) "" cfg.startX cfg.startY []
    (by intro g hg; exact absurd hg (List.not_mem_nil g))
    (Or.inl rfl) (fun w hwmem => hwmem)
  by_cases hlast :
      (layoutWrapWords cfg seg.style W (jsSplitOnChar ' ' seg.text) "" cfg.startX
        cfg.startY []).2.2.2 ≠ ""
  · rw [if_pos hlast] at hf
    rw [layoutSegmentsAux] at hf
    rcases List.mem_append.mp hf with hf | hf
    · exact hinv.1 f hf
    · rcases List.mem_singleton.mp hf with rfl
      refine ⟨?_, rfl⟩
      rcases hinv.2 with hq | hq | hq
      · exact absurd hq hlast
      · exact Or.inl hq
      · exact Or.inr hq
  · rw [if_neg hlast] at hf
    rw [layoutSegmentsAux] at hf
    exact hinv.1 f hf

lemma layout_aabb_eval :
    layoutSegments (TextLayoutEngine.create {}) [⟨"aa bb", defaultStyle⟩] (some 40) =
      [⟨"aa", defaultStyle, 10, 30, 84/5, 14⟩, ⟨"bb", defaultStyle, 10, 248/5, 84/5, 14⟩] := by
  norm_num [layoutSegments, layoutSegmentsAux, layoutWrapWords, measureText,
    measureTextFallback, jsOrQ, qMax, defaultStyle, TextLayoutEngine.create,
    show jsSplitOnChar ' ' "aa bb" = ["aa", "bb"] from by decide,
    show strContainsChar "aa bb" ' ' = true from by decide,
    show isHeadingStyle ⟨"aa bb", defaultStyle⟩ = false from by decide,
    show isUnstyledSegment ⟨"aa bb", defaultStyle⟩ = true from by decide,
    show ("aa bb" : String) ≠ "\n" from by decide,
    show ("aa" : String) ≠ "" from by decide,
    show ("bb" : String) ≠ "" from by decide,
    show ("normal" : String) ≠ "italic" from by decide,
    show ("normal" : String) ≠ "bold" from by decide,
    show ("aa" ++ " " ++ "bb" : String) = "aa bb" from by decide,
    show ("aa bb" : String).length = 5 from rfl,
    show ("aa" : String).length = 2 from rfl,
    show ("bb" : String).length = 2 from rfl]

/-- Witness for `layoutSegments_word_wrap_bound`: the first fragment of the
wrapped segment `"aa bb"` at width 40 measures within the bound and keeps
the default style. -/
theorem layoutSegments_word_wrap_bound_witness :
    (((84:ℚ)/5 ≤ 40 ∨ "aa" ∈ jsSplitOnChar ' ' "aa bb") ∧ defaultStyle = defaultStyle) ∧
    (measureText (TextLayoutEngine.create {}) "aa bb" defaultStyle).width > 40 ∧
    strContainsChar "aa bb" ' ' = true := by
  refine ⟨?_, ?_, by decide⟩
  · have h := layoutSegments_word_wrap_bound (TextLayoutEngine.create {}) 40
      ⟨"aa bb", defaultStyle⟩ ⟨"aa", defaultStyle, 10, 30, 84/5, 14⟩
      (by norm_num [measureText, measureTextFallback, jsOrQ, defaultStyle,
            TextLayoutEngine.create,
            show ("normal" : String) ≠ "italic" from by decide,
            show ("normal" : String) ≠ "bold" from by decide,
            show ("aa bb" : String).length = 5 from rfl])
      (by decide)
      (by rw [layout_aabb_eval]; exact List.mem_cons_self _ _)
    exact h
  · norm_num [measureText, measureTextFallback, jsOrQ, defaultStyle,
      TextLayoutEngine.create,
      show ("normal" : String) ≠ "italic" from by decide,
      show ("normal" : String) ≠ "bold" from by decide,
      show ("aa bb" : String).length = 5 from rfl]

/-- Counterexample to C7 as stated: for the word-wrap path the claimed rule
fails.  The first fragment of laying out `"aa bb"` at wrap width 40 (with
the default engine: startY 30, line height 19.6, fragment height 14) is
placed at `y = 30`, the line's cursor y itself, whereas the claimed offset
`cursorY + (max(lineHeight, height) - height)` would put it at 35.6. -/
theorem wrap_fragment_y_offset_counterexample :
    ((layoutSegments (TextLayoutEngine.create {}) [⟨"aa bb", defaultStyle⟩]
        (some 40)).head?.map (fun f => f.y)) = some 30 ∧
    (TextLayoutEngine.create {}).startY +
        (qMax (TextLayoutEngine.create {}).lineHeight 14 - 14) ≠ 30 := by
  constructor
  · rw [layout_aabb_eval]; rfl
  · norm_num [TextLayoutEngine.create, qMax]

/-- C7 amended: fragments placed by the *non-wrapping* path — wherever the
line cursor stands, including mid-line — are bottom aligned in a line slot
of height `max(configured line height, measured height)`: after the
heading pre-spacing adjustment and the mid-line overflow break (if any),
their `y` is the adjusted cursor y plus `(slot height - height)`;
word-wrapped fragments are instead placed at the cursor y directly. -/
theorem nonwrap_fragment_bottom_aligned :
    ∀ (cfg : LayoutConfig) (W : ℚ) (seg : TextSegment) (rest : List TextSegment)
      (x y : ℚ) (out : List PositionedTextSegment),
      seg.text ≠ "\n" →
      ¬ ((measureText cfg seg.text seg.style).width > W ∧
          strContainsChar seg.text ' ' = true) →
      let measurement := measureText cfg seg.text seg.style
      let segmentLineHeight := qMax cfg.lineHeight measurement.height
      let adjusted : ℚ × ℚ :=
        if isHeadingStyle seg ∧ x > cfg.startX then
          (cfg.startX, y + segmentLineHeight * 0.75)
        else (x, y)
      let broke : ℚ × ℚ :=
        if adjusted.1 > cfg.startX ∧ adjusted.1 + measurement.width > W then
          (cfg.startX, adjusted.2 + segmentLineHeight)
        else adjusted
      ∃ x2 y2,
        layoutSegmentsAux cfg W (seg :: rest) x y out =
          layoutSegmentsAux cfg W rest x2 y2 (out ++
            [{ text := seg.text, style := seg.style,
               x := broke.1 + (if isUnstyledSegment seg then (2 : ℚ) else 0),
               y := broke.2 + (segmentLineHeight - measurement.height),
               width := measurement.width,
               height := measurement.height }]) := by
  intro cfg W seg rest x y out hne hnw
  rw [layoutSegmentsAux, if_neg hne]
  dsimp only
  rw [if_neg hnw]
  exact ⟨_, _, rfl⟩

/-- Witness for `nonwrap_fragment_bottom_aligned`: the non-wrapping segment
`"hi"`, placed with the cursor 50 units into the line, stays on the line
at the cursor x (plus the unstyled nudge) and lands bottom-aligned in its
line slot. -/
theorem nonwrap_fragment_bottom_aligned_witness :
    layoutSegmentsAux (TextLayoutEngine.create {}) 400 [⟨"hi", defaultStyle⟩]
        ((TextLayoutEngine.create {}).startX + 50) 30 [] =
      [{ text := "hi", style := defaultStyle,
         x := (TextLayoutEngine.create {}).startX + 50 + 2,
         y := 30 + (qMax (TextLayoutEngine.create {}).lineHeight
              (measureText (TextLayoutEngine.create {}) "hi" defaultStyle).height -
              (measureText (TextLayoutEngine.create {}) "hi" defaultStyle).height),
         width := (measureText (TextLayoutEngine.create {}) "hi" defaultStyle).width,
         height := (measureText (TextLayoutEngine.create {}) "hi" defaultStyle).height }] := by
  obtain ⟨x2, y2, heq⟩ := nonwrap_fragment_bottom_aligned (TextLayoutEngine.create {}) 400
    ⟨"hi", defaultStyle⟩ [] ((TextLayoutEngine.create {}).startX + 50) 30 []
    (by decide) (fun h => absurd h.2 (by decide))
  rw [heq, layoutSegmentsAux]
  simp only [show isHeadingStyle ⟨"hi", defaultStyle⟩ = false from by decide,
    show isUnstyledSegment ⟨"hi", defaultStyle⟩ = true from by decide,
    Bool.false_eq_true, false_and, if_false, if_true, reduceIte]
  norm_num [TextLayoutEngine.create, measureText, measureTextFallback, qMax, jsOrQ,
    defaultStyle,
    show ("normal" : String) ≠ "italic" from by decide,
    show ("normal" : String) ≠ "bold" from by decide,
    show ("hi" : String).length = 2 from rfl]

lemma mapDelete_keys_sublist {α : Type} (es : List (String × α)) (k : String) :
    ((mapDelete es k).2.map Prod.fst).Sublist (es.map Prod.fst) := by
  induction es with
  | nil => simp [mapDelete]
  | cons p rest ih =>
    obtain ⟨k', v⟩ := p
    rw [mapDelete]
    by_cases h : k' = k
    · rw [if_pos h]
      exact List.sublist_cons_self k' (List.map Prod.fst rest)
    · rw [if_neg h]
      simpa using List.Sublist.cons₂ k' ih

lemma mapDelete_not_mem_keys {α : Type} {es : List (String × α)} (k : String)
    (hnd : (es.map Prod.fst).Nodup) :
    k ∉ ((mapDelete es k).2.map Prod.fst) := by
  induction es with
  | nil => simp [mapDelete]
  | cons p rest ih =>
    obtain ⟨k', v⟩ := p
    rw [mapDelete]
    simp only [List.map_cons, List.nodup_cons] at hnd
    by_cases h : k' = k
    · rw [if_pos h]
      subst h
      exact hnd.1
    · rw [if_neg h]
      simp only [List.map_cons, List.mem_cons]
      rintro (rfl | hmem)
      · exact h rfl
      · exact ih hnd.2 hmem

lemma mapDelete_preserve {α : Type} {es : List (String × α)} {k k' : String} {v : α}
    (hne : k' ≠ k) (hp : (k', v) ∈ es) : (k', v) ∈ (mapDelete es k).2 := by
  induction es with
  | nil => cases hp
  | cons p rest ih =>
    obtain ⟨k0, v0⟩ := p
    rw [mapDelete]
    by_cases h : k0 = k
    · rw [if_pos h]
      rcases List.mem_cons.mp hp with heq | hp
      · cases heq; exact absurd h hne
      · exact hp
    · rw [if_neg h]
      rcases List.mem_cons.mp hp with heq | hp
      · cases heq; exact List.mem_cons_self _ _
      · exact List.mem_cons_of_mem _ (ih hp)

lemma mapDelete_true {α : Type} {es : List (String × α)} {k : String}
    (h : k ∈ es.map Prod.fst) : (mapDelete es k).1 = true := by
  induction es with
  | nil => cases h
  | cons p rest ih =>
    obtain ⟨k0, v0⟩ := p
    rw [mapDelete]
    by_cases hk : k0 = k
    · rw [if_pos hk]
    · rw [if_neg hk]
      rcases List.mem_cons.mp h with heq | h
    
      · exact absurd heq.symm hk
      · exact ih h

lemma mapGet_some_mem {α : Type} {es : List (String × α)} {k : String} {v : α}
    (h : mapGet es k = some v) : (k, v) ∈ es := by
  induction es with
  | nil => cases h
  | cons p rest ih =>
    obtain ⟨k0, v0⟩ := p
    rw [mapGet] at h
    by_cases hk : k0 = k
    · subst hk
      rw [List.find?_cons_of_pos _ (by simp)] at h
      simp only [Option.map_some'] at h
      cases h
      exact List.mem_cons_self _ _
    · rw [List.find?_cons_of_neg _ (by simp [hk])] at h
      exact List.mem_cons_of_mem _ (ih h)

lemma foldDelete_keys_sublist {α : Type} (names : List String) :
    ∀ acc : Bool × List (String × α),
      (((names.foldl (fun acc tag =>
          let d := mapDelete acc.2 (strToLower tag)
          (acc.1 || d.1, d.2)) acc).2).map Prod.fst).Sublist (acc.2.map Prod.fst) := by
  induction names with
  | nil => intro acc; exact List.Sublist.refl _
  | cons n rest ih =>
    intro acc
    rw [List.foldl_cons]
    exact (ih _).trans (mapDelete_keys_sublist acc.2 (strToLower n))

lemma foldDelete_true_mono {α : Type} (names : List String) :
    ∀ acc : Bool × List (String × α), acc.1 = true →
      (names.foldl (fun acc tag =>
        let d := mapDelete acc.2 (strToLower tag)
        (acc.1 || d.1, d.2)) acc).1 = true := by
  induction names with
  | nil => intro acc h; exact h
  | cons n rest ih =>
    intro acc h
    rw [List.foldl_cons]
    exact ih _ (by simp [h])

lemma foldDelete_removes {α : Type} (names : List String) :
    ∀ (acc : Bool × List (String × α)) (k : String),
      (acc.2.map Prod.fst).Nodup →
      k ∈ names.map strToLower →
      k ∉ ((names.foldl (fun acc tag =>
        let d := mapDelete acc.2 (strToLower tag)
        (acc.1 || d.1, d.2)) acc).2).map Prod.fst := by
  induction names with
  | nil => intro acc k _ hk; cases hk
  | cons n rest ih =>
    intro acc k hnd hk
    rw [List.foldl_cons]
    by_cases hkr : k ∈ rest.map strToLower
    · exact ih _ k ((mapDelete_keys_sublist acc.2 (strToLower n)).nodup hnd) hkr
    · rw [List.map_cons, List.mem_cons] at hk
      have hkn : k = strToLower n := by
        rcases hk with h | h
        · exact h
        · exact absurd h hkr
      subst hkn
      intro hmem
      have hsub := foldDelete_keys_sublist (α := α) rest
        ((acc.1 || (mapDelete acc.2 (strToLower n)).1, (mapDelete acc.2 (strToLower n)).2))
      exact mapDelete_not_mem_keys _ hnd (hsub.subset hmem)

lemma foldDelete_hit_true {α : Type} (names : List String) :
    ∀ (acc : Bool × List (String × α)) (k : String),
      k ∈ acc.2.map Prod.fst →
      k ∈ names.map strToLower →
      (names.foldl (fun acc tag =>
        let d := mapDelete acc.2 (strToLower tag)
        (acc.1 || d.1, d.2)) acc).1 = true := by
  induction names with
  | nil => intro acc k _ hk; cases hk
  | cons n rest ih =>
    intro acc k hmem hk
    rw [List.foldl_cons]
    by_cases hkn : k = strToLower n
    · subst hkn
      exact foldDelete_true_mono rest _ (by simp [mapDelete_true hmem])
    · rw [List.map_cons, List.mem_cons] at hk
      have hkr : k ∈ rest.map strToLower := by
        rcases hk with h | h
        · exact absurd h hkn
        · exact h
      obtain ⟨⟨k0, v0⟩, hp, hke⟩ := List.mem_map.mp hmem
      cases hke
      exact ih _ k0 (List.mem_map.mpr
        ⟨(k0, v0), mapDelete_preserve hkn hp, rfl⟩) hkr

lemma mapGet_mapSet_self {α : Type} (es : List (String × α)) (k : String) (v : α) :
    mapGet (mapSet es k v) k = some v := by
  induction es with
  | nil => simp [mapSet, mapGet]
  | cons p rest ih =>
    obtain ⟨k0, v0⟩ := p
    rw [mapSet]
    by_cases h : k0 = k
    · rw [if_pos h, mapGet, List.find?_cons_of_pos _ (by simp)]
      rfl
    · rw [if_neg h, mapGet, List.find?_cons_of_neg _ (by simp [h])]
      exact ih

lemma mem_keys_mapSet {α : Type} (es : List (String × α)) (k a : String) (v : α) :
    a ∈ (mapSet es k v).map Prod.fst ↔ a ∈ es.map Prod.fst ∨ a = k := by
  induction es with
  | nil => simp [mapSet]
  | cons p rest ih =>
    obtain ⟨k0, v0⟩ := p
    rw [mapSet]
    by_cases h : k0 = k
    · subst h
      rw [if_pos rfl]
      simp only [List.map_cons, List.mem_cons]
      tauto
    · rw [if_neg h]
      simp only [List.map_cons, List.mem_cons, ih]
      tauto

lemma mapSet_keys_nodup {α : Type} (es : List (String × α)) (k : String) (v : α)
    (hnd : (es.map Prod.fst).Nodup) : ((mapSet es k v).map Prod.fst).Nodup := by
  induction es with
  | nil => simp [mapSet]
  | cons p rest ih =>
    obtain ⟨k0, v0⟩ := p
    simp only [List.map_cons, List.nodup_cons] at hnd
    rw [mapSet]
    by_cases h : k0 = k
    · subst h
      rw [if_pos rfl]
      simp only [List.map_cons, List.nodup_cons]
      exact ⟨hnd.1, hnd.2⟩
    · rw [if_neg h]
      simp only [List.map_cons, List.nodup_cons]
      refine ⟨?_, ih hnd.2⟩
      rw [mem_keys_mapSet]
      rintro (hm | rfl)
      · exact hnd.1 hm
      · exact h rfl

lemma mapGet_mapSet_other {α : Type} (es : List (String × α)) {k k' : String}
    (h : k' ≠ k) (v : α) : mapGet (mapSet es k v) k' = mapGet es k' := by
  have hkk : ¬ k = k' := fun he => h he.symm
  induction es with
  | nil =>
    rw [show mapSet ([] : List (String × α)) k v = [(k, v)] from rfl,
        mapGet, List.find?_cons_of_neg _ (by simp [hkk])]
    rfl
  | cons p rest ih =>
    obtain ⟨k0, v0⟩ := p
    rw [mapSet]
    by_cases hk : k0 = k
    · subst hk
      rw [if_pos rfl, mapGet, mapGet,
        List.find?_cons_of_neg _ (by simp [hkk]),
        List.find?_cons_of_neg _ (by simp [hkk])]
    · rw [if_neg hk, mapGet, mapGet]
      by_cases hk' : k0 = k'
      · subst hk'
        rw [List.find?_cons_of_pos _ (by simp), List.find?_cons_of_pos _ (by simp)]
      · rw [List.find?_cons_of_neg _ (by simp [hk']), List.find?_cons_of_neg _ (by simp [hk'])]
        exact ih

lemma mapGet_eq_none_of_not_mem_keys {α : Type} {es : List (String × α)} {k : String}
    (h : k ∉ es.map Prod.fst) : mapGet es k = none := by
  induction es with
  | nil => rfl
  | cons p rest ih =>
    obtain ⟨k0, v0⟩ := p
    simp only [List.map_cons, List.mem_cons] at h
    push_neg at h
    rw [mapGet, List.find?_cons_of_neg _ (by simp; exact fun he => h.1 he.symm)]
    exact ih h.2

/-- C5: in a well-formed registry state (unique keys, every binding to a
handler among that handler's lowercased declared names — the invariant
`registerStrategy` maintains), removing by any name bound to a handler
returns `true` and removes ALL tag-name bindings pointing to that same
handler instance; removing by an unbound name returns `false` and leaves
the registry unchanged; and registering a handler declaring two tag names
then removing by either name makes both names unsupported. -/
theorem removeStrategy_cascade :
    ∀ (α : Type) (tagNames : α → List String) (r : TagStrategyRegistry α),
      (r.entries.map Prod.fst).Nodup →
      ((∀ (name : String) (s : α),
          r.getStrategy name = some s →
          (∀ p ∈ r.entries, p.2 = s → p.1 ∈ (tagNames s).map strToLower) →
          (TagStrategyRegistry.removeStrategy tagNames r name).1 = true ∧
          ∀ p ∈ r.entries, p.2 = s →
            p.1 ∉ ((TagStrategyRegistry.removeStrategy tagNames r name).2).entries.map
              Prod.fst) ∧
       (∀ name : String, r.getStrategy name = none →
          TagStrategyRegistry.removeStrategy tagNames r name = (false, r)) ∧
       (∀ (s : α) (n1 n2 m : String), tagNames s = [n1, n2] → (m = n1 ∨ m = n2) →
          ((TagStrategyRegistry.removeStrategy tagNames
              (TagStrategyRegistry.registerStrategy tagNames r s) m).2).isSupported n1 =
            false ∧
          ((TagStrategyRegistry.removeStrategy tagNames
              (TagStrategyRegistry.registerStrategy tagNames r s) m).2).isSupported n2 =
            false)) := by
  intro α tagNames r hnodup
  refine ⟨?_, ?_, ?_⟩
  · intro name s hget hbind
    have hp0 : (strToLower name, s) ∈ r.entries := mapGet_some_mem hget
    constructor
    · rw [TagStrategyRegistry.removeStrategy, hget]
      dsimp only
      apply foldDelete_hit_true
      · exact List.mem_map.mpr ⟨(strToLower name, s), hp0, rfl⟩
      · exact hbind _ hp0 rfl
    · intro p hp hps
      rw [TagStrategyRegistry.removeStrategy, hget]
      dsimp only
      exact foldDelete_removes _ _ _ hnodup (hbind p hp hps)
  · intro name hget
    rw [TagStrategyRegistry.removeStrategy, hget]
  · intro s n1 n2 m htags hm
    have hent : (TagStrategyRegistry.registerStrategy tagNames r s).entries =
        mapSet (mapSet r.entries (strToLower n1) s) (strToLower n2) s := by
      rw [TagStrategyRegistry.registerStrategy, htags]
      rfl
    have hnd1 : (((TagStrategyRegistry.registerStrategy tagNames r s).entries).map
        Prod.fst).Nodup := by
      rw [hent]
      exact mapSet_keys_nodup _ _ _ (mapSet_keys_nodup _ _ _ hnodup)
    have hget1 : (TagStrategyRegistry.registerStrategy tagNames r s).getStrategy m =
        some s := by
      rw [TagStrategyRegistry.getStrategy, hent]
      rcases hm with rfl | rfl
      · by_cases h12 : strToLower m = strToLower n2
        · rw [h12]
          exact mapGet_mapSet_self _ _ _
        · rw [mapGet_mapSet_other _ h12 s]
          exact mapGet_mapSet_self _ _ _
      · exact mapGet_mapSet_self _ _ _
    have hgone : ∀ ni, ni = n1 ∨ ni = n2 →
        ((TagStrategyRegistry.removeStrategy tagNames
          (TagStrategyRegistry.registerStrategy tagNames r s) m).2).isSupported ni =
          false := by
      intro ni hni
      rw [TagStrategyRegistry.removeStrategy, hget1]
      dsimp only
      rw [TagStrategyRegistry.isSupported]
      dsimp only
      rw [mapGet_eq_none_of_not_mem_keys
        (foldDelete_removes _ _ _ hnd1 (by rw [htags]; rcases hni with rfl | rfl <;> simp))]
      rfl
    exact ⟨hgone n1 (Or.inl rfl), hgone n2 (Or.inr rfl)⟩

/-- Witness for `removeStrategy_cascade` at a concrete two-name registry
over `Nat` handler instances. -/
theorem removeStrategy_cascade_witness :
    (TagStrategyRegistry.removeStrategy (fun _ : Nat => ["x", "y"])
        ⟨[("x", 0), ("y", 0)]⟩ "x").1 = true ∧
    TagStrategyRegistry.removeStrategy (fun _ : Nat => ["x", "y"])
        (⟨[("x", 0), ("y", 0)]⟩ : TagStrategyRegistry Nat) "z" =
      (false, ⟨[("x", 0), ("y", 0)]⟩) ∧
    ((TagStrategyRegistry.removeStrategy (fun _ : Nat => ["x", "y"])
        (TagStrategyRegistry.registerStrategy (fun _ : Nat => ["x", "y"])
          ⟨[]⟩ 0) "y").2).isSupported "x" = false := by
  have h1 := removeStrategy_cascade Nat (fun _ => ["x", "y"])
    ⟨[("x", 0), ("y", 0)]⟩ (by decide)
  have h2 := removeStrategy_cascade Nat (fun _ => ["x", "y"])
    (⟨[]⟩ : TagStrategyRegistry Nat) (by decide)
  exact ⟨(h1.1 "x" 0 (by decide) (by decide)).1, h1.2.1 "z" (by decide),
    (h2.2.2 0 "x" "y" "y" rfl (Or.inr rfl)).1⟩

lemma applyAndPush_errors {strategy : TagStrategy} {tagName attrs : String}
    {st st' : ParserState} (h : applyAndPush strategy tagName attrs st = .ok st') :
    st'.errors = st.errors := by
  unfold applyAndPush at h
  cases hap : strategy.applyStyle st.currentStyle attrs (some tagName) st.listState with
  | error e => rw [hap] at h; cases h
  | ok p =>
    cases p with
    | mk ns ls =>
      rw [hap] at h
      cases h
      rfl

lemma processOpeningTag_count {reg : TagStrategyRegistry TagStrategy}
    {tagName attrs : String} {st st' : ParserState} (m : String)
    (h : processOpeningTag reg tagName attrs st = .ok st') :
    st.errors.count m ≤ st'.errors.count m := by
  unfold processOpeningTag at h
  cases hg : reg.getStrategy tagName with
  | none =>
    rw [hg] at h
    dsimp only at h
    cases h
    simp [List.count_append]
  | some s =>
    rw [hg] at h
    dsimp only at h
    cases hv : s.validateAttributes <;> rw [hv] at h <;> dsimp only at h <;>
      repeat' split at h
    all_goals
      first
        | (cases h; try simp [pushBreakSegment, List.count_append])
        | (rw [applyAndPush_errors h]; try simp [pushBreakSegment, List.count_append])

lemma processTextPart_errors (part : String) (st : ParserState) :
    (processTextPart part st).errors = st.errors := by
  unfold processTextPart
  split_ifs <;> simp

lemma processClosingTag_errors (cn attrs : String) (rest : List Tok) (st : ParserState) :
    (processClosingTag cn attrs rest st).errors = st.errors := by
  unfold processClosingTag pushBreakSegment
  by_cases h1 : cn = "ul" ∨ cn = "ol" <;>
  by_cases h2 : cn = "li" <;>
  by_cases h3 : cn ∈ blockElementTags <;>
  by_cases h4 : strTrim (attrs ++ flattenToks rest) = "" <;>
  by_cases h5 : 1 < st.styleStack.length <;>
  simp +decide [h1, h2, h3, h4, h5]

lemma processTok_count (reg : TagStrategyRegistry TagStrategy) (n : String) (t : Tok)
    (rest : List Tok) (st st' : ParserState) (h : processTok reg t rest st = .ok st') :
    st.errors.count ("Unsupported tag: " ++ n) + unsupportedOpenCount reg n [t] ≤
      st'.errors.count ("Unsupported tag: " ++ n) := by
  cases t with
  | text s =>
    simp only [processTok] at h
    cases h
    simp [unsupportedOpenCount, processTextPart_errors]
  | tag slash name attrs =>
    by_cases hs : slash = "/"
    · subst hs
      simp only [processTok, reduceIte] at h
      cases h
      simp [unsupportedOpenCount, processClosingTag_errors]
    · have h' : processOpeningTag reg (strToLower name) attrs st = .ok st' := by
        simp only [processTok, if_neg hs] at h
        exact h
      cases hg : reg.getStrategy (strToLower name) with
      | some s =>
        have hz : unsupportedOpenCount reg n [Tok.tag slash name attrs] = 0 := by
          simp [unsupportedOpenCount, hg]
        rw [hz, Nat.add_zero]
        exact processOpeningTag_count _ h'
      | none =>
        rw [processOpeningTag, hg] at h'
        dsimp only at h'
        cases h'
        by_cases hn : strToLower name = n
        · subst hn
          simp [unsupportedOpenCount, hg, hs, List.count_append]
        · simp only [unsupportedOpenCount, hg, hs, hn, List.count_append]
          simp [hn]
  
lemma runToks_count (reg : TagStrategyRegistry TagStrategy) (n : String) :
    ∀ (toks ctx : List Tok) (st st' : ParserState),
      runToks reg toks ctx st = .ok st' →
      st.errors.count ("Unsupported tag: " ++ n) + unsupportedOpenCount reg n toks ≤
        st'.errors.count ("Unsupported tag: " ++ n) := by
  intro toks
  induction toks with
  | nil =>
    intro ctx st st' h
    simp only [runToks] at h
    cases h
    simp [unsupportedOpenCount]
  | cons t ts ih =>
    intro ctx st st' h
    simp only [runToks] at h
    cases hp : processTok reg t (ts ++ ctx) st with
    | error e => rw [hp] at h; cases h
    | ok st1 =>
      rw [hp] at h
      dsimp only at h
      have h1 := processTok_count reg n t (ts ++ ctx) st st1 hp
      have h2 := ih ctx st1 st' h
      have hsplit : unsupportedOpenCount reg n (t :: ts) =
          unsupportedOpenCount reg n [t] + unsupportedOpenCount reg n ts := by
        cases t <;> simp [unsupportedOpenCount]
      omega

lemma validateTags_count (reg : TagStrategyRegistry TagStrategy) (n : String) :
    ∀ (toks : List Tok) (openTags errs : List String),
      errs.count ("Unsupported tag: " ++ n) + unsupportedOpenCount reg n toks ≤
        ((validateTags reg toks openTags errs).2).count ("Unsupported tag: " ++ n) := by
  intro toks
  induction toks with
  | nil =>
    intro openTags errs
    simp [validateTags, unsupportedOpenCount]
  | cons t ts ih =>
    intro openTags errs
    have key : ∀ (o ex : List String),
        errs.count ("Unsupported tag: " ++ n) + unsupportedOpenCount reg n ts ≤
          ((validateTags reg ts o (errs ++ ex)).2).count ("Unsupported tag: " ++ n) := by
      intro o ex
      have hx := ih o (errs ++ ex)
      rw [List.count_append] at hx
      omega
    cases t with
    | text s =>
      simp only [validateTags]
      simpa [unsupportedOpenCount] using ih openTags errs
    | tag slash name attrs =>
      simp only [validateTags, unsupportedOpenCount]
      by_cases hs : slash = "/"
      · rw [if_pos hs]
        have hc : (if slash ≠ "/" ∧ strToLower name = n ∧
            (reg.getStrategy (strToLower name)).isNone = true then 1 else 0) = 0 := by
          simp [hs]
        rw [hc, Nat.zero_add]
        cases openTags with
        | nil => exact key [] _
        | cons top restOpen =>
          dsimp only
          by_cases ht : top = strToLower name
          · rw [if_pos ht]
            exact ih restOpen errs
          · rw [if_neg ht]
            exact key _ _
      · rw [if_neg hs]
        cases hg : mapGet reg.entries (strToLower (strToLower name)) with
        | some s =>
          have hsup : reg.isSupported (strToLower name) = true := by
            rw [TagStrategyRegistry.isSupported, hg]
            rfl
          have hc : (if slash ≠ "/" ∧ strToLower name = n ∧
              (reg.getStrategy (strToLower name)).isNone = true then 1 else 0) = 0 := by
            simp [TagStrategyRegistry.getStrategy, hg]
          rw [hc, Nat.zero_add, if_pos hsup]
          exact ih _ errs
        | none =>
          have hsup : ¬ reg.isSupported (strToLower name) = true := by
            rw [TagStrategyRegistry.isSupported, hg]
            simp
          rw [if_neg hsup]
          by_cases hn : strToLower name = n
          · rw [hn] at hg
            have hc : (if slash ≠ "/" ∧ strToLower name = n ∧
                (reg.getStrategy (strToLower name)).isNone = true then 1 else 0) = 1 := by
              simp [hs, hn, TagStrategyRegistry.getStrategy, hg]
            rw [hc, hn]
            have hx := ih (if isSelfClosingTag n = true then openTags else n :: openTags)
              (errs ++ ["Unsupported tag: " ++ n])
            rw [List.count_append] at hx
            have hone : (["Unsupported tag: " ++ n].count ("Unsupported tag: " ++ n)) = 1 := by
              simp
            omega
          · have hc : (if slash ≠ "/" ∧ strToLower name = n ∧
                (reg.getStrategy (strToLower name)).isNone = true then 1 else 0) = 0 := by
              simp [hn]
            rw [hc, Nat.zero_add]
            exact key _ _

/-- C10 (implicit): for every input, each occurrence of an opening tag with
no registered handler contributes the "Unsupported tag" message at least
twice to the returned error list — once from the structural validation
pre-pass and once from the token walk — so callers receive duplicate
entries (hypothesis: the walk completes without an internal failure, as it
always does for the built-in strategies). -/
theorem unsupportedTag_error_reported_twice :
    ∀ (reg : TagStrategyRegistry TagStrategy) (html n : String) (r : ParseResult),
      parseBody reg html (validationErrorList reg html) = .ok r →
      2 * unsupportedOpenCount reg n (tokenize html) ≤
        ((HTMLParser.parseHTML reg html).errors).count ("Unsupported tag: " ++ n) := by
  intro reg html n r hok
  rw [HTMLParser.parseHTML, hok]
  by_cases hz : unsupportedOpenCount reg n (tokenize html) = 0
  · rw [hz]
    simp
  · have hcnt : 1 ≤ unsupportedOpenCount reg n (tokenize html) :=
      Nat.one_le_iff_ne_zero.mpr hz
    have hne : html ≠ "" := by
      intro he
      apply hz
      rw [he]
      rfl
    have hval : unsupportedOpenCount reg n (tokenize html) ≤
        ((validateTags reg (tokenize html) [] []).2).count ("Unsupported tag: " ++ n) := by
      simpa using validateTags_count reg n (tokenize html) [] []
    have hfull : unsupportedOpenCount reg n (tokenize html) ≤
        ((HTMLParser.validateHTML reg html).errors).count ("Unsupported tag: " ++ n) := by
      rw [HTMLParser.validateHTML, if_neg hne]
      dsimp only
      split
      · rw [List.count_append]
        omega
      · exact hval
    have hvalid : (HTMLParser.validateHTML reg html).isValid = false := by
      have hpos : 0 < ((HTMLParser.validateHTML reg html).errors).count
          ("Unsupported tag: " ++ n) := lt_of_lt_of_le hcnt hfull
      have hmem := List.count_pos_iff.mp hpos
      have hne2 := List.ne_nil_of_mem hmem
      have hiv : (HTMLParser.validateHTML reg html).isValid =
          ((HTMLParser.validateHTML reg html).errors).isEmpty := by
        rw [HTMLParser.validateHTML, if_neg hne]
      rw [hiv]
      rcases hE : (HTMLParser.validateHTML reg html).errors with _ | ⟨e, es⟩
      · exact absurd hE hne2
      · rfl
    have hlist : validationErrorList reg html = (HTMLParser.validateHTML reg html).errors := by
      rw [validationErrorList, hvalid]
      rfl
    rw [parseBody] at hok
    cases hrun : runToks reg (tokenize html) []
        (initialParserState (validationErrorList reg html)) with
    | error e => rw [hrun] at hok; cases hok
    | ok stF =>
      rw [hrun] at hok
      dsimp only at hok
      cases hok
      have hwalk := runToks_count reg n (tokenize html) []
        (initialParserState (validationErrorList reg html)) stF hrun
      have hinit : (initialParserState (validationErrorList reg html)).errors =
          (HTMLParser.validateHTML reg html).errors := hlist ▸ rfl
      rw [hinit] at hwalk
      dsimp only [SpacingAnalyzer.analyzeAndAssignSpacing]
      omega

/-- Witness for `unsupportedTag_error_reported_twice`: `"<zzz>hi</zzz>"`
contains one unsupported opening tag and the returned error list holds the
message twice. -/
theorem unsupportedTag_error_reported_twice_witness :
    unsupportedOpenCount createDefaultTagStrategyRegistry "zzz" (tokenize "<zzz>hi</zzz>") = 1 ∧
    2 * unsupportedOpenCount createDefaultTagStrategyRegistry "zzz"
        (tokenize "<zzz>hi</zzz>") ≤
      ((HTMLParser.parseHTML createDefaultTagStrategyRegistry "<zzz>hi</zzz>").errors).count
        ("Unsupported tag: " ++ "zzz") := by
  constructor
  · decide
  · exact unsupportedTag_error_reported_twice createDefaultTagStrategyRegistry
      "<zzz>hi</zzz>" "zzz"
      { segments := [⟨"hi", defaultStyle⟩],
        errors := ["Unsupported tag: zzz", "Unsupported tag: zzz"] } (by rfl)
